import Mathlib

/-!
# WebhookTrader demo: the pipeline of `src/TradingWebDemo.jsx`

A shallow embedding of the stateful part of the React component
`TradingWebhookDemo`: the strategy registry (`strategies`), the signal ledger
(`signals`), the activity log (`logs`), the shared id counter (`nextId`) and
the handlers `addLog`, `handleToggle` and `handleSimulate` with its two
`setTimeout` callbacks.

Modelling conventions.

* The component state is one record `State`; a handler is a function
  `State → State`.  A state updater passed to `setLogs`, `setStrategies` or
  `setSignals` is queued: it runs once, when the handler or callback that
  queued it has returned and the component renders, and the updaters queued
  for one state variable run in the order in which they were queued.  The
  component renders between two events.  So what the body of a handler does itself (reading the clock
  into `t`, drawing `Math.random()`, taking the id of the new signal with
  `nextId.current++`) comes before what its updaters do (the updater of
  `addLog` taking its id and reading the clock).
* The impure host functions are read from a `World`: the `k`-th call of
  `new Date()` inside `now` sees `World.clock k`, the `k`-th call of
  `Math.random()` returns `World.random k`.  The state counts the calls made
  so far (`clockReads`, `randomDraws`).
* `setTimeout(cb, d)` adds a `Timer` to `State.timers`; the event
  `Event.timeout i` fires the `i`-th pending timer.
* A JavaScript number is kept as the decimal that denotes it (`JSNumber`):
  rounding to binary64 is not modelled.  `parseFloat` therefore differs from
  the host function on text that binary64 cannot hold: `1e-400` stays a
  positive decimal (the host gives `0`), `1e400` stays finite (the host gives
  `Infinity`), and digits beyond the precision of binary64 are kept.
* A log message is kept as the pieces of its template literal (`Piece`): the
  conversion of an interpolated number to text (`ToString`, and the
  locale-dependent `toLocaleString`) stays symbolic.
* `toUpperCase` maps the ASCII letters `a`–`z`; other characters are kept
  (the host maps `ß` to `SS`, for instance).  The form only supplies the
  tokens `buy` and `sell`.
-/

namespace TradingWebDemo

/-! ## JavaScript values -/

/-- A JavaScript number: `NaN`, `±Infinity`, or the decimal
`(-1)^negative * digits * 10^exp10` (so `-0` is `decimal true 0 0`). -/
inductive JSNumber where
  | nan
  | infinity (negative : Bool)
  | decimal (negative : Bool) (digits : Nat) (exp10 : Int)
  deriving DecidableEq

/-- JavaScript truthiness of a number: `NaN`, `0` and `-0` are falsy. -/
def JSNumber.truthy : JSNumber → Bool
  | .nan => false
  | .infinity _ => true
  | .decimal _ digits _ => digits != 0

/-- The expression `n || 0`. -/
def JSNumber.orZero (n : JSNumber) : JSNumber :=
  if n.truthy then n else .decimal false 0 0

/-- The integer `(-1)^negative * digits * 10^(exp10 - base)`, for `base ≤ exp10`. -/
def JSNumber.scaled (negative : Bool) (digits : Nat) (exp10 base : Int) : Int :=
  (if negative then -1 else 1) * ((digits : Int) * 10 ^ (exp10 - base).toNat)

/-- The comparison `a > b` of two numbers (`false` when either is `NaN`). -/
def JSNumber.gt : JSNumber → JSNumber → Bool
  | .nan, _ => false
  | _, .nan => false
  | .infinity na, .infinity nb => !na && nb
  | .infinity na, .decimal _ _ _ => !na
  | .decimal _ _ _, .infinity nb => nb
  | .decimal na da ea, .decimal nb db eb =>
    decide (JSNumber.scaled na da ea (min ea eb) > JSNumber.scaled nb db eb (min ea eb))

/-- A number is a finite positive decimal. -/
def JSNumber.IsPositive : JSNumber → Prop
  | .decimal false digits _ => 0 < digits
  | _ => False

instance (n : JSNumber) : Decidable n.IsPositive := by
  cases n with
  | nan => exact isFalse (fun h => h)
  | infinity b => exact isFalse (fun h => h)
  | decimal neg digits e =>
    cases neg with
    | false => exact inferInstanceAs (Decidable (0 < digits))
    | true => exact isFalse (fun h => h)

/-- The characters skipped by `parseFloat` at the start of its argument
(`StrWhiteSpaceChar`: white space and line terminators). -/
def isStrWhiteSpaceChar (c : Char) : Bool :=
  c.toNat ∈ [0x09, 0x0A, 0x0B, 0x0C, 0x0D, 0x20, 0xA0, 0x1680, 0x2000, 0x2001, 0x2002,
    0x2003, 0x2004, 0x2005, 0x2006, 0x2007, 0x2008, 0x2009, 0x200A, 0x2028, 0x2029,
    0x202F, 0x205F, 0x3000, 0xFEFF]

/-- The value of a run of decimal digits. -/
def digitsValue (ds : List Char) : Nat :=
  ds.foldl (fun acc c => 10 * acc + (c.toNat - 48)) 0

/-- The value of an `ExponentPart` at the start of `cs`, `0` when there is none:
`e` or `E`, an optional sign, at least one digit. -/
def exponentPart (cs : List Char) : Int :=
  match cs with
  | [] => 0
  | c :: rest =>
    if c = 'e' ∨ c = 'E' then
      match rest with
      | [] => 0
      | d :: ds =>
        if d = '-' then -((digitsValue (ds.takeWhile Char.isDigit) : Nat) : Int)
        else if d = '+' then ((digitsValue (ds.takeWhile Char.isDigit) : Nat) : Int)
        else ((digitsValue ((d :: ds).takeWhile Char.isDigit) : Nat) : Int)
    else 0

/-- The unsigned part of `parseFloat`: the longest prefix of `cs` that is a
`StrUnsignedDecimalLiteral` (`Infinity`, `digits[.digits][exp]` or `.digits[exp]`),
`NaN` when no prefix is one. -/
def parseUnsigned (negative : Bool) (cs : List Char) : JSNumber :=
  if cs.take 8 = "Infinity".data then .infinity negative
  else
    let intPart := cs.takeWhile Char.isDigit
    let rest := cs.dropWhile Char.isDigit
    let fracPart := match rest with
      | [] => []
      | c :: r => if c = '.' then r.takeWhile Char.isDigit else []
    let afterFrac := match rest with
      | [] => []
      | c :: r => if c = '.' then r.dropWhile Char.isDigit else rest
    if intPart = [] ∧ fracPart = [] then .nan
    else .decimal negative (digitsValue (intPart ++ fracPart))
      (exponentPart afterFrac - (fracPart.length : Int))

/-- The global function `parseFloat` on a string. -/
def parseFloat (s : String) : JSNumber :=
  match s.data.dropWhile isStrWhiteSpaceChar with
  | [] => .nan
  | c :: rest =>
    if c = '-' then parseUnsigned true rest
    else if c = '+' then parseUnsigned false rest
    else parseUnsigned false (c :: rest)

/-- A character of `String.prototype.toUpperCase`, on the ASCII letters. -/
def upperChar (c : Char) : Char :=
  if 'a' ≤ c ∧ c ≤ 'z' then Char.ofNat (c.toNat - 32) else c

/-- The method `toUpperCase`. -/
def toUpperCase (s : String) : String :=
  String.mk (s.data.map upperChar)

/-- The expression `s.split("/")[0]`: the text before the first `/`. -/
def splitSlashFirst (s : String) : String :=
  String.mk (s.data.takeWhile (fun c => c != '/'))

/-- The method `padStart(2, "0")`. -/
def padStart2 (s : String) : String :=
  String.mk (List.replicate (2 - s.length) '0') ++ s

/-- What `new Date()` exposes to `now`: local hours, minutes and seconds. -/
structure Date where
  hours : Nat
  minutes : Nat
  seconds : Nat

/-- The function `now`: the reading of the clock as `HH:MM:SS`. -/
def now (d : Date) : String :=
  padStart2 (Nat.repr d.hours) ++ ":" ++ padStart2 (Nat.repr d.minutes) ++ ":"
    ++ padStart2 (Nat.repr d.seconds)

/-- One piece of a template literal. -/
inductive Piece where
  | lit (s : String)
  | str (s : String)
  | num (n : JSNumber)
  | localeNum (n : JSNumber)
  deriving DecidableEq

/-- A log message, as the pieces of the template literal that builds it. -/
abbrev Message := List Piece

/-! ## Data model -/

/-- An element of `strategies`. -/
structure Strategy where
  id : String
  name : String
  pair : String
  exchange : String
  status : String
  pnl : JSNumber
  deriving DecidableEq

/-- An element of `signals`, the ledger. -/
structure Signal where
  id : Nat
  time : String
  strategy : String
  pair : String
  action : String
  price : JSNumber
  qty : JSNumber
  status : String
  deriving DecidableEq

/-- An element of `logs`, the activity log. -/
structure LogRecord where
  id : Nat
  time : String
  type : String
  msg : Message
  deriving DecidableEq

/-- The callback of a pending `setTimeout`, with the values it closes over. -/
inductive Callback where
  | dispatch
  | settle (t action simPair : String) (price qty : JSNumber)
  deriving DecidableEq

/-- A pending `setTimeout`: the time (ms) at which it is due, and its callback. -/
structure Timer where
  due : Nat
  callback : Callback
  deriving DecidableEq

/-- The host functions the component reads: the clock and `Math.random`. -/
structure World where
  clock : Nat → Date
  random : Nat → JSNumber

/-- The state of the component `TradingWebhookDemo`. -/
structure State where
  strategies : List Strategy
  signals : List Signal
  logs : List LogRecord
  nextId : Nat
  timers : List Timer
  clockReads : Nat
  randomDraws : Nat

/-- The form fields read by `handleSimulate`. -/
structure Command where
  simAction : String
  simPair : String
  simPrice : String
  simQty : String

def MOCK_STRATEGIES : List Strategy :=
  [ { id := "s1", name := "EMA Crossover", pair := "BTC/USDT", exchange := "Binance",
      status := "active", pnl := .decimal false 125 (-1) },
    { id := "s2", name := "RSI Divergence", pair := "ETH/USDT", exchange := "Bybit",
      status := "active", pnl := .decimal true 32 (-1) },
    { id := "s3", name := "MACD Signal", pair := "SOL/USDT", exchange := "OKX",
      status := "paused", pnl := .decimal false 87 (-1) } ]

def MOCK_SIGNALS : List Signal :=
  [ { id := 1, time := "14:32:05", strategy := "EMA Crossover", pair := "BTC/USDT",
      action := "BUY", price := .decimal false 974325 (-1), qty := .decimal false 15 (-3),
      status := "filled" },
    { id := 2, time := "14:28:11", strategy := "RSI Divergence", pair := "ETH/USDT",
      action := "SELL", price := .decimal false 38421 (-1), qty := .decimal false 85 (-2),
      status := "filled" },
    { id := 3, time := "14:15:33", strategy := "EMA Crossover", pair := "BTC/USDT",
      action := "SELL", price := .decimal false 971050 (-1), qty := .decimal false 15 (-3),
      status := "filled" },
    { id := 4, time := "13:55:20", strategy := "MACD Signal", pair := "SOL/USDT",
      action := "BUY", price := .decimal false 18632 (-2), qty := .decimal false 25 (-1),
      status := "rejected" } ]

/-- The initial value of `logs`. -/
def initialLogs : List LogRecord :=
  [ { id := 0, time := "14:32:05", type := "success",
      msg := [.lit "ORDER FILLED: BUY 0.015 BTC @ $97,432.50"] },
    { id := 1, time := "14:32:04", type := "info",
      msg := [.lit "Sending order to Binance..."] },
    { id := 2, time := "14:32:03", type := "info",
      msg := [.lit "Webhook received: EMA Crossover → BUY BTC/USDT"] },
    { id := 3, time := "14:28:12", type := "success",
      msg := [.lit "ORDER FILLED: SELL 0.85 ETH @ $3,842.10"] },
    { id := 4, time := "14:15:34", type := "success",
      msg := [.lit "ORDER FILLED: SELL 0.015 BTC @ $97,105.00"] },
    { id := 5, time := "13:55:21", type := "error",
      msg := [.lit "ORDER REJECTED: MACD Signal paused — SOL/USDT BUY skipped"] },
    { id := 6, time := "13:50:00", type := "info",
      msg := [.lit "System started. Listening for webhooks..."] } ]

/-- The state of the component when it is mounted. -/
def initialState : State :=
  { strategies := MOCK_STRATEGIES
    signals := MOCK_SIGNALS
    logs := initialLogs
    nextId := 100
    timers := []
    clockReads := 0
    randomDraws := 0 }

/-! ## Operations -/

/-- The callback `addLog`, when the updater it passes to `setLogs` runs: a
record with the next id and the current clock reading is put in front of
`logs`. -/
def addLog (w : World) (type : String) (msg : Message) (s : State) : State :=
  { s with
    logs := { id := s.nextId, time := now (w.clock s.clockReads), type := type, msg := msg }
      :: s.logs
    nextId := s.nextId + 1
    clockReads := s.clockReads + 1 }

/-- The arrow function that `handleToggle` maps over `prev`, run from left to
right: the strategies with the given id get the other run state, and `addLog`
is called for each of them.  The updaters of these calls run in the order of
the calls; the map reads neither the counter nor the clock, so their effect is
threaded through the map. -/
def toggleMap (w : World) (id : String) : List Strategy → State → List Strategy × State
  | [], s => ([], s)
  | x :: rest, s =>
    if x.id = id then
      let next := if x.status = "active" then "paused" else "active"
      let s1 := addLog w (if next = "active" then "success" else "warn")
        [.lit "Strategy \"", .str x.name, .lit "\" ",
          .str (if next = "active" then "RESUMED" else "PAUSED")] s
      let r := toggleMap w id rest s1
      ({ x with status := next } :: r.1, r.2)
    else
      let r := toggleMap w id rest s
      (x :: r.1, r.2)

/-- The handler `handleToggle`: its body queues the updater of `setStrategies`,
which maps `toggleMap` over the registry when it runs. -/
def handleToggle (w : World) (id : String) (s : State) : State :=
  let r := toggleMap w id s.strategies s
  { r.2 with strategies := r.1 }

/-- The synchronous part of `handleSimulate`, called at time `ms`.  Its body
reads the clock, parses the form fields and schedules the two callbacks 300 ms
and 800 ms later; the updater of its `addLog` call, which logs the reception,
runs when the body has returned. -/
def handleSimulate (w : World) (ms : Nat) (c : Command) (s : State) : State :=
  let t := now (w.clock s.clockReads)
  let price := (parseFloat c.simPrice).orZero
  let qty := (parseFloat c.simQty).orZero
  let action := toUpperCase c.simAction
  let s0 := { s with
    clockReads := s.clockReads + 1
    timers := s.timers ++
      [ { due := ms + 300, callback := .dispatch },
        { due := ms + 800, callback := .settle t action c.simPair price qty } ] }
  addLog w "info"
    [.lit "Webhook received: Manual Signal → ", .str action, .lit " ", .str c.simPair] s0

/-- The first callback of `handleSimulate` (300 ms). -/
def dispatchCallback (w : World) (s : State) : State :=
  addLog w "info" [.lit "Sending order to exchange..."] s

/-- The second callback of `handleSimulate` (800 ms).  Its body draws the
backend, calls `addLog` and `setSignals`, and takes the id of the new signal
from the counter itself (`id: nextId.current++` is evaluated in the body).
The two queued updaters run when the body has returned: the one of `addLog`
takes the next id and reads the clock, the one of `setSignals` puts the new
signal in front of `signals`; they write different parts of the state. -/
def settleCallback (w : World) (t action simPair : String) (price qty : JSNumber)
    (s : State) : State :=
  let filled := JSNumber.gt (w.random s.randomDraws) (.decimal false 2 (-1))
  let newSignal : Signal :=
    { id := s.nextId
      time := t
      strategy := "Manual Signal"
      pair := simPair
      action := action
      price := price
      qty := qty
      status := if filled then "filled" else "rejected" }
  let s0 := { s with randomDraws := s.randomDraws + 1, nextId := s.nextId + 1 }
  let s1 :=
    if filled then
      addLog w "success"
        [.lit "ORDER FILLED: ", .str action, .lit " ", .num qty, .lit " ",
          .str (splitSlashFirst simPair), .lit " @ $", .localeNum price] s0
    else
      addLog w "error"
        [.lit "ORDER REJECTED: Insufficient balance for ", .str simPair, .lit " ",
          .str action] s0
  { s1 with signals := newSignal :: s1.signals }

/-- Running a callback. -/
def Callback.run (w : World) : Callback → State → State
  | .dispatch, s => dispatchCallback w s
  | .settle t action simPair price qty, s => settleCallback w t action simPair price qty s

/-- The `i`-th pending timer fires: it leaves `timers` and its callback runs.
Nothing happens when there is no such timer. -/
def timeout (w : World) (i : Nat) (s : State) : State :=
  match s.timers[i]? with
  | none => s
  | some tm => tm.callback.run w { s with timers := s.timers.eraseIdx i }

/-- A manual-test command run to settlement: `handleSimulate` is called, then
the two callbacks it scheduled fire, the dispatch first, the settle second,
and nothing runs in between. -/
def simulateToSettlement (w : World) (ms : Nat) (c : Command) (s : State) : State :=
  timeout w s.timers.length (timeout w s.timers.length (handleSimulate w ms c s))

/-- What can happen to the component: a click on a strategy toggle, a click on
the simulate button at time `ms`, or a pending timer firing. -/
inductive Event where
  | toggle (id : String)
  | simulate (ms : Nat) (c : Command)
  | timeout (i : Nat)

/-- One event. -/
def step (w : World) (s : State) : Event → State
  | .toggle id => handleToggle w id s
  | .simulate ms c => handleSimulate w ms c s
  | .timeout i => timeout w i s

/-- A sequence of events, from a state. -/
def run (w : World) (evs : List Event) (s : State) : State :=
  evs.foldl (step w) s

/-- The states the component can be in: those reached from the initial state
by some sequence of events. -/
def Reachable (w : World) (s : State) : Prop :=
  ∃ evs : List Event, run w evs initialState = s

/-- A world for worked examples: the clock shows 09:30:00 plus `k` seconds at
its `k`-th reading, and every draw of `Math.random` is `0.5`. -/
def exampleWorld : World :=
  { clock := fun k => { hours := 9, minutes := 30, seconds := k % 60 }
    random := fun _ => .decimal false 5 (-1) }

/-- The command of the specification's scenario. -/
def exampleCommand : Command :=
  { simAction := "buy", simPair := "BTC/USDT", simPrice := "97432.5", simQty := "0.015" }

/-! ## Specification vocabulary -/

/-- The Received notice of a manual-test command. -/
def IsReceived (r : LogRecord) : Prop :=
  r.type = "info" ∧ r.msg.head? = some (.lit "Webhook received: Manual Signal → ")

/-- The Dispatched notice. -/
def IsDispatched (r : LogRecord) : Prop :=
  r.type = "info" ∧ r.msg = [.lit "Sending order to exchange..."]

/-- The Settled notice of a filled order. -/
def IsFilledNotice (r : LogRecord) : Prop :=
  r.type = "success" ∧ r.msg.head? = some (.lit "ORDER FILLED: ")

/-- The Settled notice of a rejected order. -/
def IsRejectedNotice (r : LogRecord) : Prop :=
  r.type = "error" ∧
    r.msg.head? = some (.lit "ORDER REJECTED: Insufficient balance for ")

/-- A Settled notice: the order was filled or rejected. -/
def IsSettled (r : LogRecord) : Prop :=
  IsFilledNotice r ∨ IsRejectedNotice r

instance (r : LogRecord) : Decidable (IsReceived r) :=
  inferInstanceAs (Decidable (r.type = "info" ∧
    r.msg.head? = some (.lit "Webhook received: Manual Signal → ")))

instance (r : LogRecord) : Decidable (IsDispatched r) :=
  inferInstanceAs (Decidable (r.type = "info" ∧ r.msg = [.lit "Sending order to exchange..."]))

instance (r : LogRecord) : Decidable (IsFilledNotice r) :=
  inferInstanceAs (Decidable (r.type = "success" ∧
    r.msg.head? = some (.lit "ORDER FILLED: ")))

instance (r : LogRecord) : Decidable (IsRejectedNotice r) :=
  inferInstanceAs (Decidable (r.type = "error" ∧
    r.msg.head? = some (.lit "ORDER REJECTED: Insufficient balance for ")))

instance (r : LogRecord) : Decidable (IsSettled r) :=
  inferInstanceAs (Decidable (IsFilledNotice r ∨ IsRejectedNotice r))

/-- What `handleToggle` does to one strategy: the other run state when the id
matches, nothing otherwise. -/
def toggled (id : String) (x : Strategy) : Strategy :=
  if x.id = id then { x with status := if x.status = "active" then "paused" else "active" }
  else x

/-- The backend draw of a settle stage that starts in state `s`. -/
def drawFilled (w : World) (s : State) : Bool :=
  JSNumber.gt (w.random s.randomDraws) (.decimal false 2 (-1))

/-- The ledger's sequence ids in append order: oldest entry first, that is from
the tail of the most-recent-first list `signals` to its head. -/
def appendOrderIds (l : List Signal) : List Nat :=
  (l.map (fun e => e.id)).reverse

/-- A list of ids is gap-free: each id is exactly one more than the one before. -/
def GapFree (ids : List Nat) : Prop :=
  List.Chain' (fun a b => b = a + 1) ids

/-- Two manual-test commands, one after the other, each run to settlement
before the next event. -/
def twoCommands : List Event :=
  [ .simulate 0 exampleCommand, .timeout 0, .timeout 0,
    .simulate 1000 exampleCommand, .timeout 0, .timeout 0 ]

/-- The same command submitted twice within 100 ms; the four timers fire in
the order in which they are due (300, 400, 800 and 900 ms). -/
def duplicateSubmission : List Event :=
  [ .simulate 0 exampleCommand, .simulate 100 exampleCommand,
    .timeout 0, .timeout 1, .timeout 0, .timeout 0 ]

/-- The values of the options of the Action select of the form. -/
def actionOptions : List String := ["buy", "sell"]

/-- The values of the options of the Pair select of the form. -/
def pairOptions : List String := ["BTC/USDT", "ETH/USDT", "SOL/USDT"]

/-- A command that the form can submit: `simAction` and `simPair` start as
`buy` and `BTC/USDT` and are only set from their selects, so each holds one of
the option values; the price and the quantity are the texts of two inputs. -/
def Command.FromForm (c : Command) : Prop :=
  c.simAction ∈ actionOptions ∧ c.simPair ∈ pairOptions

instance (c : Command) : Decidable c.FromForm :=
  inferInstanceAs (Decidable (c.simAction ∈ actionOptions ∧ c.simPair ∈ pairOptions))

/-- A world whose draws of `Math.random` are all `0.1`: every order is
rejected. -/
def rejectingWorld : World :=
  { clock := fun k => { hours := 9, minutes := 30, seconds := k % 60 }
    random := fun _ => .decimal false 1 (-1) }

/-- A command with an empty price and a negative quantity. -/
def badNumbersCommand : Command :=
  { simAction := "buy", simPair := "BTC/USDT", simPrice := "", simQty := "-5" }

/-- The invariant of the ledger: the entries appended by manual-test commands
lie on top of the seeded ones; from head to tail each appended id is at least
two more than the next one, and every appended id is at least 100 and at
least two below the counter `nextId` (the Settled record took the id after
the entry's). -/
def LedgerInv (s : State) : Prop :=
  100 ≤ s.nextId ∧
  ∃ appended : List Signal, s.signals = appended ++ MOCK_SIGNALS ∧
    List.Chain' (fun a b => b + 2 ≤ a) (appended.map (fun e => e.id)) ∧
    ∀ e ∈ appended, 100 ≤ e.id ∧ e.id + 2 ≤ s.nextId

/-- What a ledger entry records of the command it settles: the clock reading
taken at reception, the pair, the action, the price and the quantity. -/
structure Order where
  time : String
  pair : String
  action : String
  price : JSNumber
  qty : JSNumber
  deriving DecidableEq

/-- The order that a ledger entry settles. -/
def Signal.order (e : Signal) : Order :=
  { time := e.time, pair := e.pair, action := e.action, price := e.price, qty := e.qty }

/-- The order that `handleSimulate` submits for a command received in state `s`. -/
def Command.order (w : World) (s : State) (c : Command) : Order :=
  { time := now (w.clock s.clockReads)
    pair := c.simPair
    action := toUpperCase c.simAction
    price := (parseFloat c.simPrice).orZero
    qty := (parseFloat c.simQty).orZero }

/-- The orders whose settle callback is still pending, in registration order. -/
def pendingOrders : List Timer → List Order
  | [] => []
  | tm :: rest =>
    match tm.callback with
    | .dispatch => pendingOrders rest
    | .settle t action simPair price qty =>
      { time := t, pair := simPair, action := action, price := price, qty := qty }
        :: pendingOrders rest

/-- The orders submitted so far, in submission order: those already settled,
read from the ledger in append order, then those still pending. -/
def ordersInOrder (s : State) : List Order :=
  s.signals.reverse.map Signal.order ++ pendingOrders s.timers

/-- The orders submitted by the `simulate` events of a run, in submission order. -/
def submittedOrders (w : World) : State → List Event → List Order
  | _, [] => []
  | s, .simulate ms c :: rest =>
    c.order w s :: submittedOrders w (handleSimulate w ms c s) rest
  | s, .toggle id :: rest => submittedOrders w (handleToggle w id s) rest
  | s, .timeout i :: rest => submittedOrders w (timeout w i s) rest

/-- The pending timer that fires next, as its index and its due time: the one
due first and, among timers due at the same time, the one registered first
(`timers` is in registration order). -/
def nextDue : List Timer → Option (Nat × Nat)
  | [] => none
  | tm :: rest =>
    match nextDue rest with
    | none => some (0, tm.due)
    | some (j, d) => if tm.due ≤ d then some (0, tm.due) else some (j + 1, d)

/-- A run in which time goes forward: every `simulate` happens at a time not
before the previous one (`t` is the time of the latest one), and every
`timeout` fires the pending timer that is due first, ties going to the timer
registered first. -/
def dueOrdered (w : World) : Nat → State → List Event → Bool
  | _, _, [] => true
  | t, s, .toggle id :: rest => dueOrdered w t (handleToggle w id s) rest
  | t, s, .simulate ms c :: rest =>
    decide (t ≤ ms) && dueOrdered w ms (handleSimulate w ms c s) rest
  | t, s, .timeout i :: rest =>
    decide ((nextDue s.timers).map Prod.fst = some i) && dueOrdered w t (timeout w i s) rest

/-- The pending settle timers are due in the order in which they were
registered, and none is due later than 800 ms after time `t`. -/
def QueueOk (t : Nat) (timers : List Timer) : Prop :=
  List.Pairwise
    (fun a b => a.callback ≠ .dispatch → b.callback ≠ .dispatch → a.due ≤ b.due) timers ∧
  ∀ tm ∈ timers, tm.callback ≠ .dispatch → tm.due ≤ t + 800

/-- A second command, to tell two submissions apart. -/
def sellCommand : Command :=
  { simAction := "sell", simPair := "ETH/USDT", simPrice := "3842.1", simQty := "0.85" }

/-- Two different commands, the second 500 ms after the first: the dispatch of
the second and the settle of the first are both due at 800 ms, and the settle,
registered first, fires first. -/
def buyThenSell : List Event :=
  [ .simulate 0 exampleCommand, .timeout 0, .simulate 500 sellCommand,
    .timeout 0, .timeout 0, .timeout 0 ]

/-- The invariant of the ids: the records added to the log and the entries
appended to the ledger lie on top of the seeded ones, and every id assigned so
far is at least 100 and below the counter `nextId`; from head to tail the
assigned ids go down, in the log and in the ledger. -/
def IdInv (s : State) : Prop :=
  100 ≤ s.nextId ∧
  ∃ (added : List LogRecord) (appended : List Signal),
    s.logs = added ++ initialLogs ∧ s.signals = appended ++ MOCK_SIGNALS ∧
    List.Pairwise (fun a b => b < a) (added.map (fun r => r.id)) ∧
    List.Pairwise (fun a b => b < a) (appended.map (fun e => e.id)) ∧
    (∀ r ∈ added, 100 ≤ r.id ∧ r.id < s.nextId) ∧
    (∀ e ∈ appended, 100 ≤ e.id ∧ e.id < s.nextId) ∧
    (∀ r ∈ added, ∀ e ∈ appended, r.id ≠ e.id)

/-! ## Basic facts about the operations -/

@[simp] theorem addLog_logs (w : World) (ty : String) (m : Message) (s : State) :
    (addLog w ty m s).logs =
      { id := s.nextId, time := now (w.clock s.clockReads), type := ty, msg := m } :: s.logs :=
  rfl

@[simp] theorem addLog_signals (w : World) (ty : String) (m : Message) (s : State) :
    (addLog w ty m s).signals = s.signals := rfl

@[simp] theorem addLog_strategies (w : World) (ty : String) (m : Message) (s : State) :
    (addLog w ty m s).strategies = s.strategies := rfl

@[simp] theorem addLog_nextId (w : World) (ty : String) (m : Message) (s : State) :
    (addLog w ty m s).nextId = s.nextId + 1 := rfl

@[simp] theorem addLog_timers (w : World) (ty : String) (m : Message) (s : State) :
    (addLog w ty m s).timers = s.timers := rfl

@[simp] theorem addLog_clockReads (w : World) (ty : String) (m : Message) (s : State) :
    (addLog w ty m s).clockReads = s.clockReads + 1 := rfl

@[simp] theorem addLog_randomDraws (w : World) (ty : String) (m : Message) (s : State) :
    (addLog w ty m s).randomDraws = s.randomDraws := rfl

/-- The registry part of `toggleMap` does not depend on the state it threads. -/
theorem toggleMap_fst (w : World) (id : String) (l : List Strategy) (s : State) :
    (toggleMap w id l s).1 = l.map (toggled id) := by
  induction l generalizing s with
  | nil => rfl
  | cons x rest ih =>
    by_cases hx : x.id = id
    · simp [toggleMap, toggled, hx, ih]
    · simp [toggleMap, toggled, hx, ih]

theorem handleToggle_strategies (w : World) (id : String) (s : State) :
    (handleToggle w id s).strategies = s.strategies.map (toggled id) := by
  simp [handleToggle, toggleMap_fst]

/-- Toggling a strategy twice gives it back, when its run state is one of the two. -/
theorem toggled_toggled (id : String) (x : Strategy)
    (h : x.status = "active" ∨ x.status = "paused") : toggled id (toggled id x) = x := by
  by_cases hx : x.id = id
  · rcases h with h | h
    · cases x
      simp_all [toggled]
    · cases x
      simp_all [toggled]
  · simp [toggled, hx]

/-- Firing the timer that sits after `pre` in the pending list. -/
theorem timeout_at (w : World) (s : State) (pre post : List Timer) (tm : Timer)
    (h : s.timers = pre ++ tm :: post) :
    timeout w pre.length s = tm.callback.run w { s with timers := pre ++ post } := by
  have h1 : s.timers[pre.length]? = some tm := by
    rw [h, List.getElem?_append_right (le_refl _)]
    simp
  have h2 : s.timers.eraseIdx pre.length = pre ++ post := by
    rw [h, List.eraseIdx_append_of_length_le (le_refl _)]
    simp
  simp only [timeout, h1, h2]

/-- A command run to settlement is the three stages in a row on the state. -/
theorem simulateToSettlement_eq (w : World) (ms : Nat) (c : Command) (s : State) :
    simulateToSettlement w ms c s =
      settleCallback w (now (w.clock s.clockReads)) (toUpperCase c.simAction) c.simPair
        (parseFloat c.simPrice).orZero (parseFloat c.simQty).orZero
        (dispatchCallback w
          (addLog w "info"
            [.lit "Webhook received: Manual Signal → ", .str (toUpperCase c.simAction),
              .lit " ", .str c.simPair]
            { s with clockReads := s.clockReads + 1 })) := by
  unfold simulateToSettlement
  rw [timeout_at w (handleSimulate w ms c s) s.timers
    [{ due := ms + 800, callback := .settle (now (w.clock s.clockReads))
        (toUpperCase c.simAction) c.simPair (parseFloat c.simPrice).orZero
        (parseFloat c.simQty).orZero }]
    { due := ms + 300, callback := .dispatch } rfl]
  rw [timeout_at w _ s.timers [] _ rfl]
  simp [Callback.run, handleSimulate, dispatchCallback, settleCallback, addLog]

theorem settleCallback_signals (w : World) (t action simPair : String) (price qty : JSNumber)
    (s : State) :
    (settleCallback w t action simPair price qty s).signals =
      { id := s.nextId, time := t, strategy := "Manual Signal", pair := simPair,
        action := action, price := price, qty := qty,
        status := if drawFilled w s then "filled" else "rejected" } :: s.signals := by
  unfold settleCallback drawFilled
  by_cases h : JSNumber.gt (w.random s.randomDraws) (.decimal false 2 (-1)) = true
  · simp [h, addLog]
  · simp [h, addLog]

theorem settleCallback_logs (w : World) (t action simPair : String) (price qty : JSNumber)
    (s : State) :
    (settleCallback w t action simPair price qty s).logs =
      (if drawFilled w s then
        { id := s.nextId + 1, time := now (w.clock s.clockReads), type := "success",
          msg := [.lit "ORDER FILLED: ", .str action, .lit " ", .num qty, .lit " ",
            .str (splitSlashFirst simPair), .lit " @ $", .localeNum price] }
      else
        { id := s.nextId + 1, time := now (w.clock s.clockReads), type := "error",
          msg := [.lit "ORDER REJECTED: Insufficient balance for ", .str simPair, .lit " ",
            .str action] }) :: s.logs := by
  unfold settleCallback drawFilled
  by_cases h : JSNumber.gt (w.random s.randomDraws) (.decimal false 2 (-1)) = true
  · simp [h, addLog]
  · simp [h, addLog]

theorem settleCallback_strategies (w : World) (t action simPair : String)
    (price qty : JSNumber) (s : State) :
    (settleCallback w t action simPair price qty s).strategies = s.strategies := by
  unfold settleCallback
  by_cases h : JSNumber.gt (w.random s.randomDraws) (.decimal false 2 (-1)) = true
  · simp [h, addLog]
  · simp [h, addLog]

theorem settleCallback_nextId (w : World) (t action simPair : String)
    (price qty : JSNumber) (s : State) :
    (settleCallback w t action simPair price qty s).nextId = s.nextId + 2 := by
  unfold settleCallback
  by_cases h : JSNumber.gt (w.random s.randomDraws) (.decimal false 2 (-1)) = true
  · simp [h, addLog]
  · simp [h, addLog]

/-- The ledger after a command run to settlement. -/
theorem simulateToSettlement_signals (w : World) (ms : Nat) (c : Command) (s : State) :
    (simulateToSettlement w ms c s).signals =
      { id := s.nextId + 2, time := now (w.clock s.clockReads), strategy := "Manual Signal",
        pair := c.simPair, action := toUpperCase c.simAction,
        price := (parseFloat c.simPrice).orZero, qty := (parseFloat c.simQty).orZero,
        status := if drawFilled w s then "filled" else "rejected" } :: s.signals := by
  rw [simulateToSettlement_eq, settleCallback_signals]
  rfl

/-- The activity log after a command run to settlement. -/
theorem simulateToSettlement_logs (w : World) (ms : Nat) (c : Command) (s : State) :
    (simulateToSettlement w ms c s).logs =
      (if drawFilled w s then
        { id := s.nextId + 3, time := now (w.clock (s.clockReads + 3)), type := "success",
          msg := [.lit "ORDER FILLED: ", .str (toUpperCase c.simAction), .lit " ",
            .num (parseFloat c.simQty).orZero, .lit " ", .str (splitSlashFirst c.simPair),
            .lit " @ $", .localeNum (parseFloat c.simPrice).orZero] }
      else
        { id := s.nextId + 3, time := now (w.clock (s.clockReads + 3)), type := "error",
          msg := [.lit "ORDER REJECTED: Insufficient balance for ", .str c.simPair, .lit " ",
            .str (toUpperCase c.simAction)] })
      :: { id := s.nextId + 1, time := now (w.clock (s.clockReads + 2)), type := "info",
           msg := [.lit "Sending order to exchange..."] }
      :: { id := s.nextId, time := now (w.clock (s.clockReads + 1)), type := "info",
           msg := [.lit "Webhook received: Manual Signal → ", .str (toUpperCase c.simAction),
             .lit " ", .str c.simPair] }
      :: s.logs := by
  rw [simulateToSettlement_eq, settleCallback_logs]
  rfl

/-- What `toggleMap` does to the state it threads: records are put in front of
the log, one id is taken for each, and nothing else changes. -/
theorem toggleMap_snd (w : World) (id : String) (l : List Strategy) (s : State) :
    ∃ added : List LogRecord,
      (toggleMap w id l s).2.logs = added ++ s.logs ∧
      (toggleMap w id l s).2.signals = s.signals ∧
      (toggleMap w id l s).2.nextId = s.nextId + added.length ∧
      (toggleMap w id l s).2.timers = s.timers ∧
      (toggleMap w id l s).2.randomDraws = s.randomDraws := by
  induction l generalizing s with
  | nil => exact ⟨[], rfl, rfl, rfl, rfl, rfl⟩
  | cons x rest ih =>
    by_cases hx : x.id = id
    · have key : ∀ s1 : State, (∃ r : LogRecord, s1.logs = r :: s.logs) →
          s1.signals = s.signals → s1.nextId = s.nextId + 1 → s1.timers = s.timers →
          s1.randomDraws = s.randomDraws →
          ∃ added : List LogRecord,
            (toggleMap w id rest s1).2.logs = added ++ s.logs ∧
            (toggleMap w id rest s1).2.signals = s.signals ∧
            (toggleMap w id rest s1).2.nextId = s.nextId + added.length ∧
            (toggleMap w id rest s1).2.timers = s.timers ∧
            (toggleMap w id rest s1).2.randomDraws = s.randomDraws := by
        intro s1 hl hsig hn ht hr
        obtain ⟨r, hl⟩ := hl
        obtain ⟨added, h1, h2, h3, h4, h5⟩ := ih s1
        refine ⟨added ++ [r], ?_, ?_, ?_, ?_, ?_⟩
        · rw [h1, hl, List.append_assoc]
          rfl
        · rw [h2, hsig]
        · rw [h3, hn, List.length_append, List.length_singleton]
          omega
        · rw [h4, ht]
        · rw [h5, hr]
      simp only [toggleMap, hx, if_true]
      exact key _ ⟨_, rfl⟩ rfl rfl rfl rfl
    · simp only [toggleMap, hx, if_false]
      exact ih s

/-- The effect of `handleToggle` outside the registry. -/
theorem handleToggle_effect (w : World) (id : String) (s : State) :
    ∃ added : List LogRecord,
      (handleToggle w id s).logs = added ++ s.logs ∧
      (handleToggle w id s).signals = s.signals ∧
      (handleToggle w id s).nextId = s.nextId + added.length ∧
      (handleToggle w id s).timers = s.timers := by
  obtain ⟨added, h1, h2, h3, h4, _⟩ := toggleMap_snd w id s.strategies s
  exact ⟨added, h1, h2, h3, h4⟩

/-- The effect of the synchronous part of `handleSimulate` on the histories. -/
theorem handleSimulate_effect (w : World) (ms : Nat) (c : Command) (s : State) :
    (∃ r : LogRecord, (handleSimulate w ms c s).logs = r :: s.logs) ∧
    (handleSimulate w ms c s).signals = s.signals ∧
    (handleSimulate w ms c s).nextId = s.nextId + 1 ∧
    (handleSimulate w ms c s).strategies = s.strategies :=
  ⟨⟨_, rfl⟩, rfl, rfl, rfl⟩

/-- A step either leaves the ledger as it is, or puts one entry in front of it
whose id is the counter, and moves the counter by two. -/
theorem step_signals (w : World) (s : State) (ev : Event) :
    ((step w s ev).signals = s.signals ∧ s.nextId ≤ (step w s ev).nextId) ∨
    (∃ e : Signal, (step w s ev).signals = e :: s.signals ∧ e.id = s.nextId ∧
      (step w s ev).nextId = s.nextId + 2) := by
  cases ev with
  | toggle id =>
    obtain ⟨added, _, h2, h3, _⟩ := handleToggle_effect w id s
    exact Or.inl ⟨h2, by simp only [step]; omega⟩
  | simulate ms c =>
    exact Or.inl ⟨rfl, by simp [step, handleSimulate]⟩
  | timeout i =>
    simp only [step, timeout]
    cases hi : s.timers[i]? with
    | none => exact Or.inl ⟨rfl, le_refl _⟩
    | some tm =>
      cases hc : tm.callback with
      | dispatch =>
        simp only [hc, Callback.run, dispatchCallback]
        exact Or.inl ⟨rfl, by simp⟩
      | settle t action simPair price qty =>
        simp only [hc, Callback.run]
        refine Or.inr ⟨_, settleCallback_signals _ _ _ _ _ _ _, rfl, ?_⟩
        rw [settleCallback_nextId]

/-- The initial state satisfies the ledger invariant. -/
theorem ledgerInv_initial : LedgerInv initialState :=
  ⟨le_refl _, [], rfl, List.chain'_nil, by simp⟩

/-- Every step keeps the ledger invariant. -/
theorem ledgerInv_step (w : World) (s : State) (ev : Event) (h : LedgerInv s) :
    LedgerInv (step w s ev) := by
  obtain ⟨h100, appended, hs, hchain, hids⟩ := h
  rcases step_signals w s ev with ⟨h1, h2⟩ | ⟨e, h1, h2, h3⟩
  · refine ⟨le_trans h100 h2, appended, by rw [h1, hs], hchain, ?_⟩
    intro e he
    exact ⟨(hids e he).1, le_trans (hids e he).2 h2⟩
  · refine ⟨by omega, e :: appended, by rw [h1, hs]; rfl, ?_, ?_⟩
    · cases appended with
      | nil => exact List.chain'_singleton _
      | cons a rest =>
        simp only [List.map_cons]
        refine List.Chain'.cons ?_ hchain
        have := (hids a (List.mem_cons_self _ _)).2
        omega
    · intro x hx
      rcases List.mem_cons.1 hx with rfl | hx
      · omega
      · have := hids x hx
        omega

/-- Every run keeps the ledger invariant. -/
theorem ledgerInv_run (w : World) (evs : List Event) (s : State) (h : LedgerInv s) :
    LedgerInv (run w evs s) := by
  induction evs generalizing s with
  | nil => exact h
  | cons ev rest ih => exact ih (step w s ev) (ledgerInv_step w s ev h)

theorem settleCallback_randomDraws (w : World) (t action simPair : String)
    (price qty : JSNumber) (s : State) :
    (settleCallback w t action simPair price qty s).randomDraws = s.randomDraws + 1 := by
  unfold settleCallback
  by_cases h : JSNumber.gt (w.random s.randomDraws) (.decimal false 2 (-1)) = true
  · simp [h, addLog]
  · simp [h, addLog]

theorem simulateToSettlement_randomDraws (w : World) (ms : Nat) (c : Command) (s : State) :
    (simulateToSettlement w ms c s).randomDraws = s.randomDraws + 1 := by
  rw [simulateToSettlement_eq, settleCallback_randomDraws]
  rfl

theorem simulateToSettlement_strategies (w : World) (ms : Nat) (c : Command) (s : State) :
    (simulateToSettlement w ms c s).strategies = s.strategies := by
  rw [simulateToSettlement_eq, settleCallback_strategies]
  rfl

theorem simulateToSettlement_nextId (w : World) (ms : Nat) (c : Command) (s : State) :
    (simulateToSettlement w ms c s).nextId = s.nextId + 4 := by
  rw [simulateToSettlement_eq, settleCallback_nextId]
  rfl

/-- The status written by the settle stage is filled exactly on a filling draw. -/
theorem status_filled_iff (b : Bool) :
    (if b then "filled" else "rejected") = "filled" ↔ b = true := by
  cases b <;> decide

/-- A step only puts records in front of the two histories. -/
theorem step_histories (w : World) (s : State) (ev : Event) :
    ∃ (newLogs : List LogRecord) (newSignals : List Signal),
      (step w s ev).logs = newLogs ++ s.logs ∧
      (step w s ev).signals = newSignals ++ s.signals := by
  cases ev with
  | toggle id =>
    obtain ⟨added, h1, h2, _, _⟩ := handleToggle_effect w id s
    exact ⟨added, [], h1, h2⟩
  | simulate ms c => exact ⟨[_], [], rfl, rfl⟩
  | timeout i =>
    simp only [step, timeout]
    cases hi : s.timers[i]? with
    | none => exact ⟨[], [], rfl, rfl⟩
    | some tm =>
      cases hc : tm.callback with
      | dispatch =>
        simp only [hc, Callback.run, dispatchCallback]
        exact ⟨[_], [], rfl, rfl⟩
      | settle t action simPair price qty =>
        simp only [hc, Callback.run]
        exact ⟨[_], [_], settleCallback_logs _ _ _ _ _ _ _, settleCallback_signals _ _ _ _ _ _ _⟩

/-- A run only puts records in front of the two histories. -/
theorem run_histories (w : World) (evs : List Event) (s : State) :
    ∃ (newLogs : List LogRecord) (newSignals : List Signal),
      (run w evs s).logs = newLogs ++ s.logs ∧
      (run w evs s).signals = newSignals ++ s.signals := by
  induction evs generalizing s with
  | nil => exact ⟨[], [], rfl, rfl⟩
  | cons ev rest ih =>
    obtain ⟨l1, g1, h1, h2⟩ := step_histories w s ev
    obtain ⟨l2, g2, h3, h4⟩ := ih (step w s ev)
    refine ⟨l2 ++ l1, g2 ++ g1, ?_, ?_⟩
    · show (run w rest (step w s ev)).logs = _
      rw [h3, h1, List.append_assoc]
    · show (run w rest (step w s ev)).signals = _
      rw [h4, h2, List.append_assoc]

/-- The expression `n || 0` is never `NaN`. -/
theorem orZero_ne_nan (n : JSNumber) : n.orZero ≠ .nan := by
  cases n with
  | nan => simp [JSNumber.orZero, JSNumber.truthy]
  | infinity b => simp [JSNumber.orZero, JSNumber.truthy]
  | decimal neg d e =>
    by_cases hd : d = 0
    · simp [JSNumber.orZero, JSNumber.truthy, hd]
    · simp [JSNumber.orZero, JSNumber.truthy, hd]

/-- The expression `n || 0` is a finite positive decimal exactly when `n` is. -/
theorem orZero_isPositive (n : JSNumber) : n.orZero.IsPositive ↔ n.IsPositive := by
  cases n with
  | nan => simp [JSNumber.orZero, JSNumber.truthy, JSNumber.IsPositive]
  | infinity b => simp [JSNumber.orZero, JSNumber.truthy]
  | decimal neg d e =>
    by_cases hd : d = 0
    · cases neg <;> simp [JSNumber.orZero, JSNumber.truthy, hd, JSNumber.IsPositive]
    · simp [JSNumber.orZero, JSNumber.truthy, hd]

/-- The expression `n || 0` is `n` itself when `n` is truthy, and `0` otherwise. -/
theorem orZero_cases (n : JSNumber) :
    (n.truthy = true ∧ n.orZero = n) ∨
    (n.truthy = false ∧ n.orZero = .decimal false 0 0) := by
  cases h : n.truthy
  · exact Or.inr ⟨rfl, by simp [JSNumber.orZero, h]⟩
  · exact Or.inl ⟨rfl, by simp [JSNumber.orZero, h]⟩

/-- A strategy keeps its id through `handleToggle`. -/
theorem toggled_id (a : String) (x : Strategy) : (toggled a x).id = x.id := by
  by_cases ha : x.id = a <;> simp [toggled, ha]

/-- A strategy with another id is not changed. -/
theorem toggled_of_ne (a : String) (x : Strategy) (h : x.id ≠ a) : toggled a x = x := by
  simp [toggled, h]

/-- What `handleToggle` does to two strategies commutes: a strategy keeps its
id, so the two changes never meet unless the ids are equal. -/
theorem toggled_comm (a b : String) (x : Strategy) :
    toggled b (toggled a x) = toggled a (toggled b x) := by
  by_cases hab : a = b
  · subst hab
    rfl
  · by_cases ha : x.id = a
    · have hb : x.id ≠ b := fun h => hab (ha.symm.trans h)
      rw [toggled_of_ne b x hb, toggled_of_ne b (toggled a x)]
      rw [toggled_id]
      exact hb
    · rw [toggled_of_ne a x ha, toggled_of_ne a (toggled b x)]
      rw [toggled_id]
      exact ha

/-- On a registry without the id, `toggleMap` changes nothing. -/
theorem toggleMap_absent (w : World) (id : String) (l : List Strategy) (s : State)
    (h : ∀ x ∈ l, x.id ≠ id) : toggleMap w id l s = (l, s) := by
  induction l generalizing s with
  | nil => rfl
  | cons y rest ih =>
    have hy : y.id ≠ id := h y (List.mem_cons_self _ _)
    have hrest : ∀ x ∈ rest, x.id ≠ id := fun x hx => h x (List.mem_cons_of_mem _ hx)
    simp only [toggleMap, hy, if_false, ih s hrest]

/-- On a registry with pairwise distinct ids, `toggleMap` calls `addLog` once,
for the one strategy that has the id. -/
theorem toggleMap_unique (w : World) (id : String) (l : List Strategy) (s : State)
    (x : Strategy) (hnodup : (l.map (fun y => y.id)).Nodup) (hx : x ∈ l) (hid : x.id = id) :
    (toggleMap w id l s).2 =
      addLog w (if (if x.status = "active" then "paused" else "active") = "active"
          then "success" else "warn")
        [.lit "Strategy \"", .str x.name, .lit "\" ",
          .str (if (if x.status = "active" then "paused" else "active") = "active"
            then "RESUMED" else "PAUSED")] s := by
  induction l generalizing s with
  | nil => cases hx
  | cons y rest ih =>
    rw [List.map_cons, List.nodup_cons] at hnodup
    by_cases hy : y.id = id
    · have hxy : x = y := by
        rcases List.mem_cons.1 hx with h | h
        · exact h
        · exfalso
          apply hnodup.1
          rw [hy, ← hid]
          exact List.mem_map_of_mem _ h
      have hrest : ∀ z ∈ rest, z.id ≠ id := by
        intro z hz hzid
        apply hnodup.1
        rw [hy, ← hzid]
        exact List.mem_map_of_mem _ hz
      subst hxy
      simp only [toggleMap, hy, if_true]
      rw [toggleMap_absent w id rest _ hrest]
    · have hx2 : x ∈ rest := by
        rcases List.mem_cons.1 hx with h | h
        · exfalso
          apply hy
          rw [← h]
          exact hid
        · exact h
      simp only [toggleMap, hy, if_false]
      exact ih s hnodup.2 hx2

/-- The number of ids `toggleMap` takes is the number of strategies with the id. -/
theorem toggleMap_nextId (w : World) (id : String) (l : List Strategy) (s : State) :
    (toggleMap w id l s).2.nextId = s.nextId + (l.filter (fun y => y.id = id)).length := by
  induction l generalizing s with
  | nil => rfl
  | cons y rest ih =>
    by_cases hy : y.id = id
    · simp only [toggleMap, hy, if_true]
      rw [ih]
      simp [hy]
      omega
    · simp only [toggleMap, hy, if_false]
      rw [ih]
      simp [hy]

/-- The ids `toggleMap` assigns: the records it adds carry the consecutive ids
from the counter on, the most recent record first. -/
theorem toggleMap_ids (w : World) (id : String) (l : List Strategy) (s : State) :
    ∃ added : List LogRecord,
      (toggleMap w id l s).2.logs = added ++ s.logs ∧
      added.map (fun r => r.id) = (List.range' s.nextId added.length).reverse ∧
      (toggleMap w id l s).2.nextId = s.nextId + added.length ∧
      (toggleMap w id l s).2.signals = s.signals := by
  induction l generalizing s with
  | nil => exact ⟨[], rfl, rfl, rfl, rfl⟩
  | cons x rest ih =>
    by_cases hx : x.id = id
    · have key : ∀ s1 : State, (∃ r : LogRecord, s1.logs = r :: s.logs ∧ r.id = s.nextId) →
          s1.signals = s.signals → s1.nextId = s.nextId + 1 →
          ∃ added : List LogRecord,
            (toggleMap w id rest s1).2.logs = added ++ s.logs ∧
            added.map (fun r => r.id) = (List.range' s.nextId added.length).reverse ∧
            (toggleMap w id rest s1).2.nextId = s.nextId + added.length ∧
            (toggleMap w id rest s1).2.signals = s.signals := by
        intro s1 hl hsig hn
        obtain ⟨r, hl, hr⟩ := hl
        obtain ⟨added, h1, h2, h3, h4⟩ := ih s1
        refine ⟨added ++ [r], ?_, ?_, ?_, ?_⟩
        · rw [h1, hl, List.append_assoc]
          rfl
        · rw [List.map_append, h2, hn, List.length_append, List.length_singleton,
            List.range'_succ, List.reverse_cons, List.map_singleton, hr]
        · rw [h3, hn, List.length_append, List.length_singleton]
          omega
        · rw [h4, hsig]
      simp only [toggleMap, hx, if_true]
      exact key _ ⟨_, rfl, rfl⟩ rfl rfl
    · simp only [toggleMap, hx, if_false]
      exact ih s

/-- The ids a step assigns: the records it puts in front of the log and of the
ledger carry ids from the counter on and below the new counter, in increasing
order of assignment; the entry of a settle takes its id before the Settled
record does. -/
theorem step_ids (w : World) (s : State) (ev : Event) :
    ∃ (newLogs : List LogRecord) (newSignals : List Signal),
      (step w s ev).logs = newLogs ++ s.logs ∧
      (step w s ev).signals = newSignals ++ s.signals ∧
      s.nextId ≤ (step w s ev).nextId ∧
      List.Pairwise (fun a b => b < a) (newLogs.map (fun r => r.id)) ∧
      List.Pairwise (fun a b => b < a) (newSignals.map (fun e => e.id)) ∧
      (∀ r ∈ newLogs, s.nextId ≤ r.id ∧ r.id < (step w s ev).nextId) ∧
      (∀ e ∈ newSignals, s.nextId ≤ e.id ∧ e.id < (step w s ev).nextId) ∧
      (∀ r ∈ newLogs, ∀ e ∈ newSignals, e.id < r.id) := by
  cases ev with
  | toggle id =>
    obtain ⟨added, h1, h2, h3, h4⟩ := toggleMap_ids w id s.strategies s
    have hn : (step w s (.toggle id)).nextId = s.nextId + added.length := h3
    refine ⟨added, [], h1, h4, by omega, ?_, List.Pairwise.nil, ?_, by simp, by simp⟩
    · rw [h2, List.pairwise_reverse]
      exact List.pairwise_lt_range' s.nextId added.length
    · intro r hr
      have hmem : r.id ∈ added.map (fun r => r.id) := List.mem_map_of_mem _ hr
      rw [h2, List.mem_reverse, List.mem_range'_1] at hmem
      omega
  | simulate ms c =>
    refine ⟨[_], [], rfl, rfl, ?_, by simp, List.Pairwise.nil, ?_, by simp, by simp⟩
    · simp [step, handleSimulate]
    · intro r hr
      rw [List.mem_singleton] at hr
      subst hr
      simp [step, handleSimulate]
  | timeout i =>
    simp only [step, timeout]
    cases hi : s.timers[i]? with
    | none => exact ⟨[], [], rfl, rfl, le_refl _, List.Pairwise.nil, List.Pairwise.nil,
        by simp, by simp, by simp⟩
    | some tm =>
      cases hc : tm.callback with
      | dispatch =>
        simp only [hc, Callback.run, dispatchCallback]
        refine ⟨[_], [], rfl, rfl, by simp, by simp, List.Pairwise.nil, ?_, by simp, by simp⟩
        intro r hr
        rw [List.mem_singleton] at hr
        subst hr
        simp
      | settle t action simPair price qty =>
        simp only [hc, Callback.run]
        refine ⟨[_], [_], settleCallback_logs _ _ _ _ _ _ _,
          settleCallback_signals _ _ _ _ _ _ _, ?_, by simp, by simp, ?_, ?_, ?_⟩
        · rw [settleCallback_nextId]
          simp
        · intro r hr
          rw [List.mem_singleton] at hr
          subst hr
          rw [settleCallback_nextId]
          constructor
          · split <;> simp
          · split <;> simp
        · intro e he
          rw [List.mem_singleton] at he
          subst he
          rw [settleCallback_nextId]
          simp
        · intro r hr e he
          rw [List.mem_singleton] at hr he
          subst hr
          subst he
          split <;> simp

/-- The initial state satisfies the invariant of the ids. -/
theorem idInv_initial : IdInv initialState :=
  ⟨le_refl _, [], [], rfl, rfl, List.Pairwise.nil, List.Pairwise.nil, by simp, by simp,
    by simp⟩

/-- Every step keeps the invariant of the ids. -/
theorem idInv_step (w : World) (s : State) (ev : Event) (h : IdInv s) :
    IdInv (step w s ev) := by
  obtain ⟨h100, added, appended, hl, hs, hpl, hps, hbl, hbs, hx⟩ := h
  obtain ⟨newLogs, newSignals, gl, gs, gn, gpl, gps, gbl, gbs, gx⟩ := step_ids w s ev
  refine ⟨le_trans h100 gn, newLogs ++ added, newSignals ++ appended, ?_, ?_, ?_, ?_, ?_, ?_,
    ?_⟩
  · rw [gl, hl, List.append_assoc]
  · rw [gs, hs, List.append_assoc]
  · rw [List.map_append, List.pairwise_append]
    refine ⟨gpl, hpl, ?_⟩
    intro a ha b hb
    obtain ⟨r, hr, rfl⟩ := List.mem_map.1 ha
    obtain ⟨r2, hr2, rfl⟩ := List.mem_map.1 hb
    have := gbl r hr
    have := hbl r2 hr2
    omega
  · rw [List.map_append, List.pairwise_append]
    refine ⟨gps, hps, ?_⟩
    intro a ha b hb
    obtain ⟨e, he, rfl⟩ := List.mem_map.1 ha
    obtain ⟨e2, he2, rfl⟩ := List.mem_map.1 hb
    have := gbs e he
    have := hbs e2 he2
    omega
  · intro r hr
    rcases List.mem_append.1 hr with hr | hr
    · have := gbl r hr
      omega
    · have := hbl r hr
      omega
  · intro e he
    rcases List.mem_append.1 he with he | he
    · have := gbs e he
      omega
    · have := hbs e he
      omega
  · intro r hr e he
    rcases List.mem_append.1 hr with hr | hr <;> rcases List.mem_append.1 he with he | he
    · have := gx r hr e he
      omega
    · have := gbl r hr
      have := hbs e he
      omega
    · have := hbl r hr
      have := gbs e he
      omega
    · exact hx r hr e he

/-- Every run keeps the invariant of the ids. -/
theorem idInv_run (w : World) (evs : List Event) (s : State) (h : IdInv s) :
    IdInv (run w evs s) := by
  induction evs generalizing s with
  | nil => exact h
  | cons ev rest ih => exact ih (step w s ev) (idInv_step w s ev h)

/-- The timer that `nextDue` points at. -/
theorem nextDue_get (l : List Timer) (i d : Nat) (h : nextDue l = some (i, d)) :
    ∃ tm : Timer, l[i]? = some tm ∧ tm.due = d := by
  induction l generalizing i d with
  | nil => simp [nextDue] at h
  | cons tm rest ih =>
    simp only [nextDue] at h
    cases hr : nextDue rest with
    | none =>
      rw [hr] at h
      simp only [Option.some.injEq, Prod.mk.injEq] at h
      obtain ⟨rfl, rfl⟩ := h
      exact ⟨tm, by simp, rfl⟩
    | some p =>
      obtain ⟨j, dj⟩ := p
      rw [hr] at h
      by_cases hle : tm.due ≤ dj
      · simp only [hle, if_true, Option.some.injEq, Prod.mk.injEq] at h
        obtain ⟨rfl, rfl⟩ := h
        exact ⟨tm, by simp, rfl⟩
      · simp only [hle, if_false, Option.some.injEq, Prod.mk.injEq] at h
        obtain ⟨rfl, rfl⟩ := h
        obtain ⟨tj, h1, h2⟩ := ih j dj hr
        exact ⟨tj, by simpa using h1, h2⟩

theorem pendingOrders_cons (tm : Timer) (rest : List Timer) :
    pendingOrders (tm :: rest) = pendingOrders [tm] ++ pendingOrders rest := by
  cases hc : tm.callback <;> simp [pendingOrders, hc]

theorem pendingOrders_append (l1 l2 : List Timer) :
    pendingOrders (l1 ++ l2) = pendingOrders l1 ++ pendingOrders l2 := by
  induction l1 with
  | nil => rfl
  | cons tm rest ih =>
    rw [List.cons_append, pendingOrders_cons, ih, pendingOrders_cons tm rest,
      List.append_assoc]

/-- When the pending settle timers are due in registration order, the timer
that fires next is a dispatch or the first pending settle: taking it out of
the pending list takes its order from the head of the pending orders. -/
theorem pendingOrders_fire (l : List Timer) (i d : Nat) (h : nextDue l = some (i, d))
    (hsorted : List.Pairwise
      (fun a b => a.callback ≠ .dispatch → b.callback ≠ .dispatch → a.due ≤ b.due) l) :
    ∃ tm : Timer, l[i]? = some tm ∧
      pendingOrders l = pendingOrders [tm] ++ pendingOrders (l.eraseIdx i) := by
  induction l generalizing i d with
  | nil => simp [nextDue] at h
  | cons tm rest ih =>
    rw [List.pairwise_cons] at hsorted
    simp only [nextDue] at h
    cases hr : nextDue rest with
    | none =>
      rw [hr] at h
      simp only [Option.some.injEq, Prod.mk.injEq] at h
      obtain ⟨rfl, rfl⟩ := h
      exact ⟨tm, by simp, pendingOrders_cons tm rest⟩
    | some p =>
      obtain ⟨j, dj⟩ := p
      rw [hr] at h
      by_cases hle : tm.due ≤ dj
      · simp only [hle, if_true, Option.some.injEq, Prod.mk.injEq] at h
        obtain ⟨rfl, rfl⟩ := h
        exact ⟨tm, by simp, pendingOrders_cons tm rest⟩
      · simp only [hle, if_false, Option.some.injEq, Prod.mk.injEq] at h
        obtain ⟨rfl, rfl⟩ := h
        obtain ⟨tj, h1, h2⟩ := ih j dj hr hsorted.2
        obtain ⟨tj2, h3, h4⟩ := nextDue_get rest j dj hr
        have htj : tj2 = tj := by
          rw [h1] at h3
          exact (Option.some.inj h3).symm
        subst htj
        refine ⟨tj2, by simpa using h1, ?_⟩
        rw [List.eraseIdx_cons_succ, pendingOrders_cons tm rest,
          pendingOrders_cons tm (rest.eraseIdx j)]
        by_cases hd : tm.callback = .dispatch
        · have : pendingOrders [tm] = [] := by simp [pendingOrders, hd]
          rw [this, List.nil_append, List.nil_append]
          exact h2
        · have hmem : tj2 ∈ rest := List.getElem?_mem h1
          have htjd : tj2.callback = .dispatch := by
            by_contra hne
            have := hsorted.1 tj2 hmem hd hne
            omega
          have hnil : pendingOrders [tj2] = [] := by simp [pendingOrders, htjd]
          rw [hnil, List.nil_append] at h2 ⊢
          rw [h2]

/-- Taking a timer out keeps the pending settle timers in order. -/
theorem queueOk_eraseIdx (t : Nat) (l : List Timer) (i : Nat) (h : QueueOk t l) :
    QueueOk t (l.eraseIdx i) :=
  ⟨h.1.sublist (List.eraseIdx_sublist l i),
    fun tm htm => h.2 tm ((List.eraseIdx_sublist l i).subset htm)⟩

/-- Scheduling the two callbacks of a command keeps the pending settle timers
in order, when the command does not come before the previous one. -/
theorem queueOk_schedule (t ms : Nat) (l : List Timer) (cb : Callback) (h : QueueOk t l)
    (hms : t ≤ ms) :
    QueueOk ms (l ++ [{ due := ms + 300, callback := .dispatch },
      { due := ms + 800, callback := cb }]) := by
  constructor
  · rw [List.pairwise_append]
    refine ⟨h.1, by simp, ?_⟩
    intro a ha b hb hna hnb
    simp only [List.mem_cons, List.mem_singleton, List.not_mem_nil, or_false] at hb
    rcases hb with rfl | rfl
    · exact absurd rfl hnb
    · have := h.2 a ha hna
      show a.due ≤ ms + 800
      omega
  · intro tm htm hne
    rcases List.mem_append.1 htm with htm | htm
    · have := h.2 tm htm hne
      omega
    · simp only [List.mem_cons, List.mem_singleton, List.not_mem_nil, or_false] at htm
      rcases htm with rfl | rfl
      · exact absurd rfl hne
      · exact le_refl _

theorem settleCallback_timers (w : World) (t action simPair : String)
    (price qty : JSNumber) (s : State) :
    (settleCallback w t action simPair price qty s).timers = s.timers := by
  unfold settleCallback
  by_cases h : JSNumber.gt (w.random s.randomDraws) (.decimal false 2 (-1)) = true
  · simp [h, addLog]
  · simp [h, addLog]

/-- A timer firing in due order moves no order: a dispatch changes neither the
ledger nor the pending orders, and a settle moves the first pending order to
the top of the ledger. -/
theorem timeout_ordersInOrder (w : World) (t : Nat) (s : State) (i d : Nat)
    (h : nextDue s.timers = some (i, d)) (hq : QueueOk t s.timers) :
    ordersInOrder (timeout w i s) = ordersInOrder s ∧ QueueOk t (timeout w i s).timers := by
  obtain ⟨tm, h1, h2⟩ := pendingOrders_fire s.timers i d h hq.1
  have hq2 := queueOk_eraseIdx t s.timers i hq
  simp only [timeout, h1]
  cases hc : tm.callback with
  | dispatch =>
    have hnil : pendingOrders [tm] = [] := by simp [pendingOrders, hc]
    rw [hnil, List.nil_append] at h2
    simp only [Callback.run, dispatchCallback]
    refine ⟨?_, hq2⟩
    show s.signals.reverse.map Signal.order ++ pendingOrders (s.timers.eraseIdx i) = _
    rw [← h2]
    rfl
  | settle t0 action simPair price qty =>
    have hone : pendingOrders [tm] = [(⟨t0, simPair, action, price, qty⟩ : Order)] := by
      simp [pendingOrders, hc]
    rw [hone] at h2
    simp only [Callback.run]
    refine ⟨?_, ?_⟩
    · unfold ordersInOrder
      rw [settleCallback_signals, settleCallback_timers, h2]
      simp [Signal.order]
    · rw [settleCallback_timers]
      exact hq2

/-- In a run where time goes forward, the orders settled and pending, read in
order, are those there were at the start followed by the orders submitted
during the run, in submission order. -/
theorem fifo_run (w : World) (evs : List Event) (t : Nat) (s : State)
    (hq : QueueOk t s.timers) (hv : dueOrdered w t s evs = true) :
    ordersInOrder (run w evs s) = ordersInOrder s ++ submittedOrders w s evs := by
  induction evs generalizing t s with
  | nil => simp [run, submittedOrders]
  | cons ev rest ih =>
    cases ev with
    | toggle id =>
      simp only [dueOrdered] at hv
      obtain ⟨_, _, h2, _, h4⟩ := handleToggle_effect w id s
      have hq2 : QueueOk t (handleToggle w id s).timers := by rw [h4]; exact hq
      have := ih t (handleToggle w id s) hq2 hv
      show ordersInOrder (run w rest (handleToggle w id s)) = _
      rw [this]
      simp only [submittedOrders, ordersInOrder, h2, h4]
    | simulate ms c =>
      simp only [dueOrdered, Bool.and_eq_true, decide_eq_true_eq] at hv
      have hq2 : QueueOk ms (handleSimulate w ms c s).timers :=
        queueOk_schedule t ms s.timers _ hq hv.1
      have := ih ms (handleSimulate w ms c s) hq2 hv.2
      show ordersInOrder (run w rest (handleSimulate w ms c s)) = _
      rw [this]
      have hsub : ordersInOrder (handleSimulate w ms c s)
          = ordersInOrder s ++ [c.order w s] := by
        show s.signals.reverse.map Signal.order ++ pendingOrders (s.timers ++ _) = _
        rw [pendingOrders_append]
        simp [ordersInOrder, pendingOrders, Command.order]
      rw [hsub]
      simp [submittedOrders]
    | timeout i =>
      simp only [dueOrdered, Bool.and_eq_true, decide_eq_true_eq] at hv
      obtain ⟨hi, hrest⟩ := hv
      cases hn : nextDue s.timers with
      | none => simp [hn] at hi
      | some p =>
        obtain ⟨j, d⟩ := p
        rw [hn] at hi
        simp only [Option.map_some', Option.some.injEq] at hi
        subst hi
        obtain ⟨h1, h2⟩ := timeout_ordersInOrder w t s j d hn hq
        have := ih t (timeout w j s) h2 hrest
        show ordersInOrder (run w rest (timeout w j s)) = _
        rw [this, h1]
        simp [submittedOrders]

/-! ## The claims -/

/-- C1: a manual-test command run to settlement adds exactly one entry to the
ledger; the entry has strategy "Manual Signal", the command's pair, the
command's action upper-cased (buy, Buy and BUY all give BUY), the parsed price
and quantity, and a status that is filled or rejected.  For action buy, pair
BTC/USDT, price 97432.5 and quantity 0.015 the entry is BUY BTC/USDT 97432.5
0.015, filled or rejected. -/
theorem handleSimulate_adds_one_entry (w : World) (ms : Nat) (c : Command) (s : State) :
    (∃ e : Signal,
      (simulateToSettlement w ms c s).signals = e :: s.signals ∧
      e.strategy = "Manual Signal" ∧ e.pair = c.simPair ∧
      e.action = toUpperCase c.simAction ∧
      e.price = (parseFloat c.simPrice).orZero ∧ e.qty = (parseFloat c.simQty).orZero ∧
      (e.status = "filled" ∨ e.status = "rejected")) ∧
    toUpperCase "buy" = "BUY" ∧ toUpperCase "Buy" = "BUY" ∧ toUpperCase "BUY" = "BUY" ∧
    (∃ e : Signal,
      (simulateToSettlement w ms exampleCommand s).signals = e :: s.signals ∧
      e.strategy = "Manual Signal" ∧ e.pair = "BTC/USDT" ∧ e.action = "BUY" ∧
      e.price = .decimal false 974325 (-1) ∧ e.qty = .decimal false 15 (-3) ∧
      (e.status = "filled" ∨ e.status = "rejected")) := by
  refine ⟨?_, by decide, by decide, by decide, ?_⟩
  · have h := simulateToSettlement_signals w ms c s
    refine ⟨_, h, rfl, rfl, rfl, rfl, rfl, ?_⟩
    cases drawFilled w s
    · exact Or.inr rfl
    · exact Or.inl rfl
  · have h := simulateToSettlement_signals w ms exampleCommand s
    have ha : toUpperCase exampleCommand.simAction = "BUY" := by decide
    have hp : (parseFloat exampleCommand.simPrice).orZero = .decimal false 974325 (-1) := by
      decide
    have hq : (parseFloat exampleCommand.simQty).orZero = .decimal false 15 (-3) := by
      decide
    refine ⟨_, h, rfl, rfl, ha, hp, hq, ?_⟩
    cases drawFilled w s
    · exact Or.inr rfl
    · exact Or.inl rfl

/-- C2: a manual-test command run to settlement with nothing interleaved adds
exactly three records to the activity log; in append order they are one
Received notice (info), one Dispatched notice (info) and one Settled notice
(success ORDER FILLED or error ORDER REJECTED); the Dispatched notice is the
only Dispatched one and the Settled notice the only Settled one among the
three.  Their ids go up in append order: the counter, the counter plus one
and the counter plus three (the ledger entry takes the id in between). -/
theorem handleSimulate_log_triple (w : World) (ms : Nat) (c : Command) (s : State) :
    ∃ received dispatched settled : LogRecord,
      (simulateToSettlement w ms c s).logs = settled :: dispatched :: received :: s.logs ∧
      IsReceived received ∧ IsDispatched dispatched ∧ IsSettled settled ∧
      received.msg = [.lit "Webhook received: Manual Signal → ",
        .str (toUpperCase c.simAction), .lit " ", .str c.simPair] ∧
      ¬ IsDispatched received ∧ ¬ IsDispatched settled ∧
      ¬ IsSettled received ∧ ¬ IsSettled dispatched ∧
      ¬ IsReceived dispatched ∧ ¬ IsReceived settled ∧
      received.id = s.nextId ∧ dispatched.id = s.nextId + 1 ∧ settled.id = s.nextId + 3 := by
  have h := simulateToSettlement_logs w ms c s
  refine ⟨_, _, _, h, ?_⟩
  cases drawFilled w s <;>
    simp [IsReceived, IsDispatched, IsSettled, IsFilledNotice, IsRejectedNotice]

/-- C3: on a registry whose run states are all active or paused, applying
handleToggle with the same id twice gives back the original registry. -/
theorem handleToggle_twice (w : World) (id : String) (s : State)
    (h : ∀ x ∈ s.strategies, x.status = "active" ∨ x.status = "paused") :
    (handleToggle w id (handleToggle w id s)).strategies = s.strategies := by
  rw [handleToggle_strategies, handleToggle_strategies, List.map_map]
  conv_rhs => rw [← List.map_id s.strategies]
  apply List.map_congr_left
  intro x hx
  exact toggled_toggled id x (h x hx)

/-- Witness of C3: toggling s1 twice on the initial registry. -/
theorem handleToggle_twice_witness :
    (∀ x ∈ initialState.strategies, x.status = "active" ∨ x.status = "paused") ∧
    (handleToggle exampleWorld "s1" (handleToggle exampleWorld "s1" initialState)).strategies
      = initialState.strategies :=
  ⟨by decide, handleToggle_twice exampleWorld "s1" initialState (by decide)⟩

/-- C4: handleToggle returns a registry of the same length and order; a
strategy whose id differs from the given one is unchanged, and a strategy with
that id keeps its id, name, pair, exchange and pnl and gets the run state
paused if it was active, active otherwise. -/
theorem handleToggle_frame (w : World) (id : String) (s : State) :
    (handleToggle w id s).strategies.length = s.strategies.length ∧
    ∀ (i : Nat) (a : Strategy), s.strategies[i]? = some a →
      ∃ b : Strategy, (handleToggle w id s).strategies[i]? = some b ∧
        (a.id ≠ id → b = a) ∧
        (a.id = id → b.id = a.id ∧ b.name = a.name ∧ b.pair = a.pair ∧
          b.exchange = a.exchange ∧ b.pnl = a.pnl ∧
          b.status = if a.status = "active" then "paused" else "active") := by
  rw [handleToggle_strategies]
  refine ⟨by simp, ?_⟩
  intro i a ha
  refine ⟨toggled id a, by simp [ha], ?_, ?_⟩
  · intro hne
    simp [toggled, hne]
  · intro heq
    simp [toggled, heq]

/-- Witness of C4: toggling s1 on the initial registry pauses the first
strategy and leaves the second one as it was. -/
theorem handleToggle_frame_witness :
    (∃ b : Strategy, (handleToggle exampleWorld "s1" initialState).strategies[0]? = some b ∧
      b.name = "EMA Crossover" ∧ b.status = "paused") ∧
    (∃ b : Strategy, (handleToggle exampleWorld "s1" initialState).strategies[1]? = some b ∧
      b.name = "RSI Divergence" ∧ b.status = "active") := by
  constructor
  · obtain ⟨b, hb, _, h2⟩ :=
      (handleToggle_frame exampleWorld "s1" initialState).2 0
        { id := "s1", name := "EMA Crossover", pair := "BTC/USDT", exchange := "Binance",
          status := "active", pnl := .decimal false 125 (-1) } (by decide)
    obtain ⟨_, hn, _, _, _, hs⟩ := h2 rfl
    exact ⟨b, hb, hn, by rw [hs]; decide⟩
  · obtain ⟨b, hb, h1, _⟩ :=
      (handleToggle_frame exampleWorld "s1" initialState).2 1
        { id := "s2", name := "RSI Divergence", pair := "ETH/USDT", exchange := "Bybit",
          status := "active", pnl := .decimal true 32 (-1) } (by decide)
    have hb2 := h1 (by decide)
    exact ⟨b, hb, by rw [hb2], by rw [hb2]⟩

/-- C5, counterexample: after two manual-test commands, each run to settlement,
the ledger ids in append order are 4, 3, 2, 1, 102, 106: they are not
gap-free (the seeded ids go down, and 106 is not 102 + 1), so the ids of a
reachable ledger need not be gap-free. -/
theorem ledger_ids_not_gap_free :
    Reachable exampleWorld (run exampleWorld twoCommands initialState) ∧
    appendOrderIds (run exampleWorld twoCommands initialState).signals
      = [4, 3, 2, 1, 102, 106] ∧
    ¬ GapFree (appendOrderIds (run exampleWorld twoCommands initialState).signals) ∧
    ¬ GapFree [102, 106] ∧
    ¬ (∀ (w : World) (s : State), Reachable w s → GapFree (appendOrderIds s.signals)) := by
  have h1 : Reachable exampleWorld (run exampleWorld twoCommands initialState) := ⟨_, rfl⟩
  have hids : appendOrderIds (run exampleWorld twoCommands initialState).signals
      = [4, 3, 2, 1, 102, 106] := by decide
  have h2 : ¬ GapFree (appendOrderIds (run exampleWorld twoCommands initialState).signals) := by
    rw [hids]
    simp [GapFree]
  exact ⟨h1, hids, h2, by simp [GapFree], fun h => h2 (h _ _ h1)⟩

/-- C5, amended: in every reachable state the ledger is the entries appended by
manual-test commands on top of the four seeded entries (ids 4, 3, 2, 1 in
append order); in append order the ids of the appended entries are strictly
increasing but never consecutive: each is at least 100, below the counter
nextId, and at least two more than the id of the entry appended just before
it. -/
theorem ledger_ids_increasing (w : World) (s : State) (h : Reachable w s) :
    ∃ appended : List Signal, s.signals = appended ++ MOCK_SIGNALS ∧
      List.Chain' (fun a b => a + 2 ≤ b) (appendOrderIds appended) ∧
      List.Chain' (fun a b => a < b) (appendOrderIds appended) ∧
      (∀ e ∈ appended, 100 ≤ e.id ∧ e.id < s.nextId) ∧
      appendOrderIds MOCK_SIGNALS = [4, 3, 2, 1] := by
  obtain ⟨evs, rfl⟩ := h
  obtain ⟨_, appended, hs, hchain, hids⟩ := ledgerInv_run w evs initialState ledgerInv_initial
  have hrev : List.Chain' (fun a b => a + 2 ≤ b) (appendOrderIds appended) := by
    unfold appendOrderIds
    rw [List.chain'_reverse]
    exact hchain
  refine ⟨appended, hs, hrev, ?_, ?_, by decide⟩
  · exact List.Chain'.imp (fun a b hab => by omega) hrev
  · intro e he
    have := hids e he
    omega

/-- Witness of C5, amended: the state after two commands run to settlement. -/
theorem ledger_ids_increasing_witness :
    Reachable exampleWorld (run exampleWorld twoCommands initialState) ∧
    ∃ appended : List Signal,
      (run exampleWorld twoCommands initialState).signals = appended ++ MOCK_SIGNALS ∧
      List.Chain' (fun a b => a + 2 ≤ b) (appendOrderIds appended) ∧
      List.Chain' (fun a b => a < b) (appendOrderIds appended) ∧
      (∀ e ∈ appended,
        100 ≤ e.id ∧ e.id < (run exampleWorld twoCommands initialState).nextId) ∧
      appendOrderIds MOCK_SIGNALS = [4, 3, 2, 1] :=
  ⟨⟨_, rfl⟩, ledger_ids_increasing exampleWorld _ ⟨twoCommands, rfl⟩⟩

/-- C6, counterexample: the same command submitted twice within 100 ms, with
both backend draws 0.5, adds two entries to the ledger, both filled and equal
in strategy, pair, action, price and quantity; the six records added to the
log are two Received, two Dispatched and two Settled notices. -/
theorem duplicate_submission_fills_twice :
    (run exampleWorld duplicateSubmission initialState).signals.drop 2
      = initialState.signals ∧
    ((run exampleWorld duplicateSubmission initialState).signals.take 2).map
        (fun e => (e.strategy, e.pair, e.action, e.price, e.qty, e.status))
      = [ ("Manual Signal", "BTC/USDT", "BUY", .decimal false 974325 (-1),
            .decimal false 15 (-3), "filled"),
          ("Manual Signal", "BTC/USDT", "BUY", .decimal false 974325 (-1),
            .decimal false 15 (-3), "filled") ] ∧
    (run exampleWorld duplicateSubmission initialState).logs.drop 6 = initialState.logs ∧
    ((run exampleWorld duplicateSubmission initialState).logs.take 6).map
        (fun r => (decide (IsReceived r), decide (IsDispatched r), decide (IsSettled r)))
      = [ (false, false, true), (false, false, true), (false, true, false),
          (false, true, false), (true, false, false), (true, false, false) ] ∧
    (run exampleWorld duplicateSubmission initialState).timers = [] := by
  decide

/-- C6, amended: handleSimulate does not deduplicate.  The same command run to
settlement twice adds exactly two entries to the ledger, equal in strategy,
pair, action, price and quantity, each filled or rejected by its own backend
draw (filled exactly when the draw exceeds 0.2, so both are filled when both
draws do), and the six records added to the log are, for each submission, a
Received, a Dispatched and a Settled notice: none is a Deduplicated notice. -/
theorem duplicate_command_two_entries (w : World) (ms1 ms2 : Nat) (c : Command) (s : State) :
    ∃ (e1 e2 : Signal) (r1 d1 t1 r2 d2 t2 : LogRecord),
      (simulateToSettlement w ms2 c (simulateToSettlement w ms1 c s)).signals
        = e2 :: e1 :: s.signals ∧
      e2.strategy = e1.strategy ∧ e2.pair = e1.pair ∧ e2.action = e1.action ∧
      e2.price = e1.price ∧ e2.qty = e1.qty ∧
      (e1.status = "filled" ∨ e1.status = "rejected") ∧
      (e2.status = "filled" ∨ e2.status = "rejected") ∧
      (e1.status = "filled" ↔
        JSNumber.gt (w.random s.randomDraws) (.decimal false 2 (-1)) = true) ∧
      (e2.status = "filled" ↔
        JSNumber.gt (w.random (s.randomDraws + 1)) (.decimal false 2 (-1)) = true) ∧
      (simulateToSettlement w ms2 c (simulateToSettlement w ms1 c s)).logs
        = t2 :: d2 :: r2 :: t1 :: d1 :: r1 :: s.logs ∧
      IsReceived r1 ∧ IsDispatched d1 ∧ IsSettled t1 ∧
      IsReceived r2 ∧ IsDispatched d2 ∧ IsSettled t2 := by
  have hs1 := simulateToSettlement_signals w ms1 c s
  have hs2 := simulateToSettlement_signals w ms2 c (simulateToSettlement w ms1 c s)
  have hl1 := simulateToSettlement_logs w ms1 c s
  have hl2 := simulateToSettlement_logs w ms2 c (simulateToSettlement w ms1 c s)
  have hd : drawFilled w (simulateToSettlement w ms1 c s)
      = JSNumber.gt (w.random (s.randomDraws + 1)) (.decimal false 2 (-1)) := by
    unfold drawFilled
    rw [simulateToSettlement_randomDraws]
  rw [hs1] at hs2
  rw [hl1] at hl2
  refine ⟨_, _, _, _, _, _, _, _, hs2, rfl, rfl, rfl, rfl, rfl, ?_, ?_, ?_, ?_, hl2, ?_⟩
  · cases drawFilled w s
    · exact Or.inr rfl
    · exact Or.inl rfl
  · cases drawFilled w (simulateToSettlement w ms1 c s)
    · exact Or.inr rfl
    · exact Or.inl rfl
  · exact status_filled_iff _
  · rw [← hd]
    exact status_filled_iff _
  · cases drawFilled w s <;> cases drawFilled w (simulateToSettlement w ms1 c s) <;>
      simp [IsReceived, IsDispatched, IsSettled, IsFilledNotice, IsRejectedNotice]

/-- C7, counterexample: the claim is about commands whose action token is
neither buy nor sell, hold for example.  The form supplies only the tokens buy
and sell, so hold is not among them and no command it can submit has another
token; and no command it can submit ends as a parse failure: the ledger always
gains an entry.  The only Error-level record is the one of a rejected order:
for the sell command with a backend draw of 0.1 the log gains an Error-level
Settled record on top of the Dispatched notice, and the ledger gains a
rejected SELL entry. -/
theorem no_invalid_action_command :
    actionOptions = ["buy", "sell"] ∧ "hold" ∉ actionOptions ∧
    ¬ (∃ c : Command, c.FromForm ∧ toUpperCase c.simAction ≠ "BUY" ∧
      toUpperCase c.simAction ≠ "SELL") ∧
    ¬ (∃ (w : World) (ms : Nat) (c : Command) (s : State), c.FromForm ∧
      (simulateToSettlement w ms c s).signals = s.signals) ∧
    sellCommand.FromForm ∧
    ((simulateToSettlement rejectingWorld 0 sellCommand initialState).signals.take 1).map
        (fun e => (e.action, e.status)) = [("SELL", "rejected")] ∧
    (simulateToSettlement rejectingWorld 0 sellCommand initialState).signals.drop 1
      = initialState.signals ∧
    ((simulateToSettlement rejectingWorld 0 sellCommand initialState).logs.take 3).map
        (fun r => (r.type, decide (IsDispatched r), decide (IsRejectedNotice r)))
      = [("error", false, true), ("info", true, false), ("info", false, false)] := by
  refine ⟨rfl, by decide, ?_, ?_, by decide, by decide, by decide, by decide⟩
  · rintro ⟨c, ⟨ha, _⟩, h1, h2⟩
    simp only [actionOptions, List.mem_cons, List.mem_singleton, List.not_mem_nil,
      or_false] at ha
    rcases ha with ha | ha
    · apply h1
      rw [ha]
      decide
    · apply h2
      rw [ha]
      decide
  · rintro ⟨w, ms, c, s, _, h⟩
    rw [simulateToSettlement_signals] at h
    exact List.cons_ne_self _ _ h

/-- C7, amended: the form supplies only the action tokens buy and sell, and
handleSimulate has no parse step, so there is no InvalidAction outcome.  Every
command the form can submit has the action BUY or SELL after upper-casing, is
dispatched, and adds exactly one ledger entry with that action and exactly
three log records: two Info-level ones, the second being the Dispatched
notice, then one that is Error-level exactly when the backend draw does not
exceed 0.2, in which case it is the ORDER REJECTED notice of a rejected entry,
and Success-level otherwise. -/
theorem handleSimulate_form_command (w : World) (ms : Nat) (c : Command) (s : State)
    (h : c.FromForm) :
    (toUpperCase c.simAction = "BUY" ∨ toUpperCase c.simAction = "SELL") ∧
    ∃ (e : Signal) (received dispatched settled : LogRecord),
      (simulateToSettlement w ms c s).signals = e :: s.signals ∧
      e.action = toUpperCase c.simAction ∧
      (simulateToSettlement w ms c s).logs = settled :: dispatched :: received :: s.logs ∧
      received.type = "info" ∧ dispatched.type = "info" ∧ IsDispatched dispatched ∧
      (settled.type = "error" ↔
        JSNumber.gt (w.random s.randomDraws) (.decimal false 2 (-1)) = false) ∧
      (settled.type = "success" ↔
        JSNumber.gt (w.random s.randomDraws) (.decimal false 2 (-1)) = true) ∧
      (settled.type = "error" → IsRejectedNotice settled ∧ e.status = "rejected") := by
  constructor
  · have ha := h.1
    simp only [actionOptions, List.mem_cons, List.mem_singleton, List.not_mem_nil,
      or_false] at ha
    rcases ha with ha | ha
    · left
      rw [ha]
      decide
    · right
      rw [ha]
      decide
  · have hs := simulateToSettlement_signals w ms c s
    have hl := simulateToSettlement_logs w ms c s
    refine ⟨_, _, _, _, hs, rfl, hl, rfl, rfl, ⟨rfl, rfl⟩, ?_, ?_, ?_⟩
    · show _ ↔ drawFilled w s = false
      cases drawFilled w s <;> simp
    · show _ ↔ drawFilled w s = true
      cases drawFilled w s <;> simp
    · cases drawFilled w s <;> simp [IsRejectedNotice]

/-- Witness of C7, amended: the example command, which the form can submit. -/
theorem handleSimulate_form_command_witness :
    exampleCommand.FromForm ∧
    (toUpperCase exampleCommand.simAction = "BUY" ∨
      toUpperCase exampleCommand.simAction = "SELL") ∧
    ∃ e : Signal,
      (simulateToSettlement exampleWorld 0 exampleCommand initialState).signals
        = e :: initialState.signals ∧
      e.action = "BUY" := by
  obtain ⟨h1, e, _, _, _, h2, h3, _⟩ :=
    handleSimulate_form_command exampleWorld 0 exampleCommand initialState (by decide)
  exact ⟨by decide, h1, e, h2, by rw [h3]; decide⟩

/-- C8, counterexample: the command with an empty price text and the quantity
text -5 is not dropped: the ledger gains an entry with price 0 and quantity
-5, neither of which is positive. -/
theorem bad_numbers_reach_the_ledger :
    parseFloat badNumbersCommand.simPrice = .nan ∧
    parseFloat badNumbersCommand.simQty = .decimal true 5 0 ∧
    (simulateToSettlement exampleWorld 0 badNumbersCommand initialState).signals.drop 1
      = initialState.signals ∧
    ((simulateToSettlement exampleWorld 0 badNumbersCommand initialState).signals.take 1).map
        (fun e => (e.price, e.qty, decide e.price.IsPositive, decide e.qty.IsPositive))
      = [(.decimal false 0 0, .decimal true 5 0, false, false)] := by
  decide

/-- C8, amended: handleSimulate validates neither number.  For every command a
ledger entry is created, whatever the price text and the quantity text; its
price is parseFloat of the price text when that is a number other than NaN and
zero, and 0 otherwise, and likewise its quantity.  So price and quantity are
never NaN, each is a finite positive decimal exactly when parseFloat of its
text is one, empty, non-numeric and zero text give 0, and negative text gives
a negative number. -/
theorem handleSimulate_no_numeric_validation (w : World) (ms : Nat) (c : Command)
    (s : State) :
    (∃ e : Signal,
      (simulateToSettlement w ms c s).signals = e :: s.signals ∧
      e.price = (parseFloat c.simPrice).orZero ∧ e.qty = (parseFloat c.simQty).orZero ∧
      e.price ≠ .nan ∧ e.qty ≠ .nan ∧
      (e.price.IsPositive ↔ (parseFloat c.simPrice).IsPositive) ∧
      (e.qty.IsPositive ↔ (parseFloat c.simQty).IsPositive) ∧
      (((parseFloat c.simPrice).truthy = true ∧ e.price = parseFloat c.simPrice) ∨
        ((parseFloat c.simPrice).truthy = false ∧ e.price = .decimal false 0 0)) ∧
      (((parseFloat c.simQty).truthy = true ∧ e.qty = parseFloat c.simQty) ∨
        ((parseFloat c.simQty).truthy = false ∧ e.qty = .decimal false 0 0))) ∧
    (parseFloat "").orZero = .decimal false 0 0 ∧
    (parseFloat "abc").orZero = .decimal false 0 0 ∧
    (parseFloat "0").orZero = .decimal false 0 0 ∧
    (parseFloat "-5").orZero = .decimal true 5 0 := by
  refine ⟨?_, by decide, by decide, by decide, by decide⟩
  exact ⟨_, simulateToSettlement_signals w ms c s, rfl, rfl, orZero_ne_nan _, orZero_ne_nan _,
    orZero_isPositive _, orZero_isPositive _, orZero_cases _, orZero_cases _⟩

/-- C9: the manual-test command does not look at the strategy registry.  For
any two registries and the same command, clock and backend draws,
handleSimulate run to settlement gives the same activity log (the three new
records included), the same ledger and the same counter; the Dispatched notice
is always among the three new records, and each registry is left as it was. -/
theorem handleSimulate_ignores_registry (w : World) (ms : Nat) (c : Command) (s : State)
    (registry1 registry2 : List Strategy) :
    (simulateToSettlement w ms c { s with strategies := registry1 }).logs
      = (simulateToSettlement w ms c { s with strategies := registry2 }).logs ∧
    (simulateToSettlement w ms c { s with strategies := registry1 }).signals
      = (simulateToSettlement w ms c { s with strategies := registry2 }).signals ∧
    (simulateToSettlement w ms c { s with strategies := registry1 }).nextId
      = (simulateToSettlement w ms c { s with strategies := registry2 }).nextId ∧
    (simulateToSettlement w ms c { s with strategies := registry1 }).strategies = registry1 ∧
    (simulateToSettlement w ms c { s with strategies := registry2 }).strategies = registry2 ∧
    (handleSimulate w ms c { s with strategies := registry1 }).strategies = registry1 ∧
    (∃ settled dispatched received : LogRecord,
      (simulateToSettlement w ms c { s with strategies := registry1 }).logs
        = settled :: dispatched :: received :: s.logs ∧
      (simulateToSettlement w ms c { s with strategies := registry2 }).logs
        = settled :: dispatched :: received :: s.logs ∧
      IsDispatched dispatched) := by
  refine ⟨?_, ?_, ?_, ?_, ?_, rfl, ?_⟩
  · rw [simulateToSettlement_logs, simulateToSettlement_logs]
    rfl
  · rw [simulateToSettlement_signals, simulateToSettlement_signals]
    rfl
  · rw [simulateToSettlement_nextId, simulateToSettlement_nextId]
  · rw [simulateToSettlement_strategies]
  · rw [simulateToSettlement_strategies]
  · refine ⟨_, _, _, simulateToSettlement_logs w ms c _, ?_, ⟨rfl, rfl⟩⟩
    rw [simulateToSettlement_logs]
    rfl

/-- C10: both histories are append-only and most-recent-first.  After addLog
the new record is the head of the activity log and the previous log is its
tail; this holds for the addLog of each stage of a manual-test command, and a
toggle only puts records in front of the log.  After a settle the new entry is
the head of the ledger and the previous ledger is its tail.  Every event, and
every sequence of events, leaves the previous log and the previous ledger as
the tail of the new ones: no existing record is changed, removed or
reordered. -/
theorem histories_append_only (w : World) (s : State) :
    (∀ (ty : String) (m : Message),
      ∃ r : LogRecord, (addLog w ty m s).logs = r :: s.logs ∧ r.type = ty ∧ r.msg = m ∧
        (addLog w ty m s).signals = s.signals) ∧
    (∀ id : String, ∃ added : List LogRecord,
      (handleToggle w id s).logs = added ++ s.logs ∧
      (handleToggle w id s).signals = s.signals) ∧
    (∀ (ms : Nat) (c : Command), ∃ r : LogRecord,
      (handleSimulate w ms c s).logs = r :: s.logs ∧
      (handleSimulate w ms c s).signals = s.signals) ∧
    (∃ r : LogRecord, (dispatchCallback w s).logs = r :: s.logs ∧
      (dispatchCallback w s).signals = s.signals) ∧
    (∀ (t action simPair : String) (price qty : JSNumber), ∃ (r : LogRecord) (e : Signal),
      (settleCallback w t action simPair price qty s).logs = r :: s.logs ∧
      (settleCallback w t action simPair price qty s).signals = e :: s.signals) ∧
    (∀ ev : Event, ∃ (newLogs : List LogRecord) (newSignals : List Signal),
      (step w s ev).logs = newLogs ++ s.logs ∧
      (step w s ev).signals = newSignals ++ s.signals) ∧
    (∀ evs : List Event, ∃ (newLogs : List LogRecord) (newSignals : List Signal),
      (run w evs s).logs = newLogs ++ s.logs ∧
      (run w evs s).signals = newSignals ++ s.signals) := by
  refine ⟨?_, ?_, ?_, ?_, ?_, ?_, ?_⟩
  · intro ty m
    exact ⟨_, rfl, rfl, rfl, rfl⟩
  · intro id
    obtain ⟨added, h1, h2, _, _⟩ := handleToggle_effect w id s
    exact ⟨added, h1, h2⟩
  · intro ms c
    exact ⟨_, rfl, rfl⟩
  · exact ⟨_, rfl, rfl⟩
  · intro t action simPair price qty
    exact ⟨_, _, settleCallback_logs w t action simPair price qty s,
      settleCallback_signals w t action simPair price qty s⟩
  · intro ev
    exact step_histories w s ev
  · intro evs
    exact run_histories w evs s

/-- C13: toggles commute on the registry: handleToggle with id a followed by
handleToggle with id b gives the same registry as b followed by a, for every
registry and every two ids, equal or different. -/
theorem handleToggle_comm (w : World) (a b : String) (s : State) :
    (handleToggle w b (handleToggle w a s)).strategies
      = (handleToggle w a (handleToggle w b s)).strategies := by
  rw [handleToggle_strategies, handleToggle_strategies, handleToggle_strategies,
    handleToggle_strategies, List.map_map, List.map_map]
  apply List.map_congr_left
  intro x _
  exact toggled_comm a b x

/-- C14, counterexample: for the example command run to settlement from the
initial state, the settle stage appends the entry with id 102 and the Settled
record with id 103: the record's id is one more than the entry's, not one
less. -/
theorem settle_entry_takes_id_first :
    ((simulateToSettlement exampleWorld 0 exampleCommand initialState).logs.take 1).map
        (fun r => (decide (IsSettled r), r.id)) = [(true, 103)] ∧
    ((simulateToSettlement exampleWorld 0 exampleCommand initialState).signals.take 1).map
        (fun e => e.id) = [102] ∧
    ¬ (∀ (w : World) (ms : Nat) (c : Command) (s : State),
      ((simulateToSettlement w ms c s).logs.take 1).map (fun r => r.id + 1)
        = ((simulateToSettlement w ms c s).signals.take 1).map (fun e => e.id)) := by
  refine ⟨by decide, by decide, ?_⟩
  intro h
  have := h exampleWorld 0 exampleCommand initialState
  revert this
  decide

/-- C14, amended: the settle stage puts exactly one record in front of the
activity log and exactly one entry in front of the ledger.  The entry takes
its id first, in the body of the callback, and the record takes the next one
when the updater of addLog runs: the record's id is the entry's plus one.  The
two agree: the record is the Success-level ORDER FILLED notice exactly when
the entry's status is filled, and the Error-level ORDER REJECTED: Insufficient
balance notice, naming the pair and the action, exactly when the entry's
status is rejected; one of the two is the case. -/
theorem settle_record_and_entry_agree (w : World) (t action simPair : String)
    (price qty : JSNumber) (s : State) :
    ∃ (r : LogRecord) (e : Signal),
      (settleCallback w t action simPair price qty s).logs = r :: s.logs ∧
      (settleCallback w t action simPair price qty s).signals = e :: s.signals ∧
      e.id = s.nextId ∧ r.id = e.id + 1 ∧
      (settleCallback w t action simPair price qty s).nextId = s.nextId + 2 ∧
      (IsFilledNotice r ↔ e.status = "filled") ∧
      (IsRejectedNotice r ↔ e.status = "rejected") ∧
      (r.type = "success" ↔ e.status = "filled") ∧
      (r.type = "error" ↔ e.status = "rejected") ∧
      (e.status = "filled" ∨ e.status = "rejected") ∧
      (e.status = "filled" → r.msg = [.lit "ORDER FILLED: ", .str action, .lit " ",
        .num qty, .lit " ", .str (splitSlashFirst simPair), .lit " @ $", .localeNum price]) ∧
      (e.status = "rejected" → r.msg = [.lit "ORDER REJECTED: Insufficient balance for ",
        .str simPair, .lit " ", .str action]) := by
  refine ⟨_, _, settleCallback_logs w t action simPair price qty s,
    settleCallback_signals w t action simPair price qty s, rfl, ?_,
    settleCallback_nextId w t action simPair price qty s, ?_⟩
  · cases drawFilled w s <;> rfl
  · cases drawFilled w s <;> simp [IsFilledNotice, IsRejectedNotice]

/-- Witness of C14, amended: the settle stage of the example command, on the
initial state with a draw of 0.5, appends a filled entry with id 100 and logs
ORDER FILLED with id 101. -/
theorem settle_record_and_entry_agree_witness :
    ∃ (r : LogRecord) (e : Signal),
      (settleCallback exampleWorld "09:30:00" "BUY" "BTC/USDT" (.decimal false 974325 (-1))
        (.decimal false 15 (-3)) initialState).logs = r :: initialState.logs ∧
      (settleCallback exampleWorld "09:30:00" "BUY" "BTC/USDT" (.decimal false 974325 (-1))
        (.decimal false 15 (-3)) initialState).signals = e :: initialState.signals ∧
      e.id = 100 ∧ r.id = 101 ∧ e.status = "filled" ∧
      r.msg = [.lit "ORDER FILLED: ", .str "BUY", .lit " ", .num (.decimal false 15 (-3)),
        .lit " ", .str "BTC", .lit " @ $", .localeNum (.decimal false 974325 (-1))] := by
  obtain ⟨r, e, h1, h2, h3, h4, _, _, _, _, _, _, h5, _⟩ :=
    settle_record_and_entry_agree exampleWorld "09:30:00" "BUY" "BTC/USDT"
      (.decimal false 974325 (-1)) (.decimal false 15 (-3)) initialState
  have he : e.status = "filled" := by
    have h2b := h2
    rw [settleCallback_signals] at h2b
    have := (List.cons.inj h2b).1
    rw [← this]
    decide
  refine ⟨r, e, h1, h2, h3, by rw [h4, h3]; rfl, he, ?_⟩
  rw [h5 he]
  decide

/-- C12, counterexample: with a clock that moves one second per reading, the
example command received at 09:30:00 settles at 09:30:03: its Settled record
carries 09:30:03, its ledger entry carries 09:30:00, the reading taken when
the command was received. -/
theorem ledger_time_is_reception_time :
    ((simulateToSettlement exampleWorld 0 exampleCommand initialState).logs.take 1).map
        (fun r => (decide (IsSettled r), r.time)) = [(true, "09:30:03")] ∧
    ((simulateToSettlement exampleWorld 0 exampleCommand initialState).signals.take 1).map
        (fun e => e.time) = ["09:30:00"] ∧
    now (exampleWorld.clock initialState.clockReads) = "09:30:00" ∧
    ¬ (∀ (w : World) (ms : Nat) (c : Command) (s : State),
      ((simulateToSettlement w ms c s).signals.take 1).map (fun e => e.time)
        = ((simulateToSettlement w ms c s).logs.take 1).map (fun r => r.time)) := by
  refine ⟨by decide, by decide, by decide, ?_⟩
  intro h
  have := h exampleWorld 0 exampleCommand initialState
  revert this
  decide

/-- C12, amended: the ledger entry written for a manual-test command carries
the clock reading taken when the command was received, the first thing
handleSimulate does; the settle stage writes the time it was given, whatever
the clock shows when it runs.  The Settled record carries the reading taken at
the settle stage, three readings later, so the two times are equal only when
these two readings of the clock are. -/
theorem ledger_time_from_reception (w : World) (ms : Nat) (c : Command) (s : State) :
    (∃ (e : Signal) (settled : LogRecord) (rest : List LogRecord),
      (simulateToSettlement w ms c s).signals = e :: s.signals ∧
      (simulateToSettlement w ms c s).logs = settled :: rest ∧
      IsSettled settled ∧
      e.time = now (w.clock s.clockReads) ∧
      settled.time = now (w.clock (s.clockReads + 3))) ∧
    (∀ (t action simPair : String) (price qty : JSNumber), ∃ e : Signal,
      (settleCallback w t action simPair price qty s).signals = e :: s.signals ∧
      e.time = t) := by
  constructor
  · refine ⟨_, _, _, simulateToSettlement_signals w ms c s,
      simulateToSettlement_logs w ms c s, ?_, rfl, ?_⟩
    · cases drawFilled w s <;> simp [IsSettled, IsFilledNotice, IsRejectedNotice]
    · cases drawFilled w s <;> rfl
  · intro t action simPair price qty
    exact ⟨_, settleCallback_signals w t action simPair price qty s, rfl⟩

/-- C15: handleToggle emits one state-change record per strategy whose id is
the given one, and never touches the ledger.  On a registry with pairwise
distinct ids that has a strategy with the id, exactly one record is put in
front of the log, with the next id: Warn-level with message Strategy "name"
PAUSED when the strategy was active (its new run state is paused), and
Success-level with message Strategy "name" RESUMED otherwise (its new run
state is active).  When no strategy has the id, no record is added and the
registry is unchanged. -/
theorem handleToggle_log_record (w : World) (id : String) (s : State) :
    (handleToggle w id s).signals = s.signals ∧
    (∃ added : List LogRecord, (handleToggle w id s).logs = added ++ s.logs ∧
      added.length = (s.strategies.filter (fun y => y.id = id)).length) ∧
    (∀ x : Strategy, (s.strategies.map (fun y => y.id)).Nodup → x ∈ s.strategies →
      x.id = id →
      ∃ r : LogRecord, (handleToggle w id s).logs = r :: s.logs ∧ r.id = s.nextId ∧
        (x.status = "active" → toggled id x ∈ (handleToggle w id s).strategies ∧
          (toggled id x).status = "paused" ∧ r.type = "warn" ∧
          r.msg = [.lit "Strategy \"", .str x.name, .lit "\" ", .str "PAUSED"]) ∧
        (x.status ≠ "active" → toggled id x ∈ (handleToggle w id s).strategies ∧
          (toggled id x).status = "active" ∧ r.type = "success" ∧
          r.msg = [.lit "Strategy \"", .str x.name, .lit "\" ", .str "RESUMED"])) ∧
    ((∀ x ∈ s.strategies, x.id ≠ id) →
      (handleToggle w id s).logs = s.logs ∧
      (handleToggle w id s).strategies = s.strategies ∧
      (handleToggle w id s).nextId = s.nextId) := by
  refine ⟨?_, ?_, ?_, ?_⟩
  · obtain ⟨_, _, h2, _, _⟩ := handleToggle_effect w id s
    exact h2
  · obtain ⟨added, h1, _, h3, _, _⟩ := toggleMap_snd w id s.strategies s
    refine ⟨added, h1, ?_⟩
    have := toggleMap_nextId w id s.strategies s
    omega
  · intro x hnodup hx hid
    have hstate := toggleMap_unique w id s.strategies s x hnodup hx hid
    have hmem : toggled id x ∈ (handleToggle w id s).strategies := by
      rw [handleToggle_strategies]
      exact List.mem_map_of_mem _ hx
    have hlogs : (handleToggle w id s).logs = (toggleMap w id s.strategies s).2.logs := rfl
    rw [hlogs, hstate]
    refine ⟨_, rfl, rfl, ?_, ?_⟩
    · intro hact
      refine ⟨hmem, by simp [toggled, hid, hact], ?_, ?_⟩
      · simp [hact]
      · simp [hact]
    · intro hact
      refine ⟨hmem, by simp [toggled, hid, hact], ?_, ?_⟩
      · simp [hact]
      · simp [hact]
  · intro habsent
    have h := toggleMap_absent w id s.strategies s habsent
    have hl : handleToggle w id s = { s with strategies := s.strategies } := by
      simp only [handleToggle, h]
    rw [hl]
    exact ⟨rfl, rfl, rfl⟩

/-- Witness of C15: on the initial registry, toggling s1 (active) logs the
Warn-level record Strategy "EMA Crossover" PAUSED with id 100, and toggling an
id that no strategy has adds no record. -/
theorem handleToggle_log_record_witness :
    (∃ r : LogRecord, (handleToggle exampleWorld "s1" initialState).logs
        = r :: initialState.logs ∧ r.id = 100 ∧ r.type = "warn" ∧
      r.msg = [.lit "Strategy \"", .str "EMA Crossover", .lit "\" ", .str "PAUSED"]) ∧
    (handleToggle exampleWorld "s9" initialState).logs = initialState.logs ∧
    (handleToggle exampleWorld "s9" initialState).strategies = initialState.strategies := by
  have h := handleToggle_log_record exampleWorld "s1" initialState
  obtain ⟨r, h1, h2, h3, _⟩ := h.2.2.1
    { id := "s1", name := "EMA Crossover", pair := "BTC/USDT", exchange := "Binance",
      status := "active", pnl := .decimal false 125 (-1) } (by decide) (by decide) rfl
  obtain ⟨_, _, h4, h5⟩ := h3 rfl
  have h9 := (handleToggle_log_record exampleWorld "s9" initialState).2.2.2 (by decide)
  exact ⟨⟨r, h1, h2, h4, h5⟩, h9.1, h9.2.1⟩

/-- C16: in every state reached from the initial state by toggles and
manual-test command stages in any order, the ids of the activity-log records
are pairwise distinct and the ids of the ledger entries are pairwise distinct.
Every id assigned so far is at least 100, above every seeded id, and below the
counter nextId; the ids the next event assigns start at nextId, so each is
strictly greater than every id assigned before it (in a settle stage the
entry takes its id before the Settled record does), and no id is assigned
twice, neither in the log nor in the ledger nor across the two. -/
theorem assigned_ids_distinct (w : World) (s : State) (h : Reachable w s) :
    (s.logs.map (fun r => r.id)).Nodup ∧
    (s.signals.map (fun e => e.id)).Nodup ∧
    (∃ (added : List LogRecord) (appended : List Signal),
      s.logs = added ++ initialLogs ∧ s.signals = appended ++ MOCK_SIGNALS ∧
      (∀ r ∈ added, 100 ≤ r.id ∧ r.id < s.nextId) ∧
      (∀ e ∈ appended, 100 ≤ e.id ∧ e.id < s.nextId) ∧
      (∀ r ∈ added, ∀ e ∈ appended, r.id ≠ e.id) ∧
      List.Pairwise (fun a b => b < a) (added.map (fun r => r.id)) ∧
      List.Pairwise (fun a b => b < a) (appended.map (fun e => e.id))) ∧
    (∀ r ∈ initialLogs, r.id < 100) ∧ (∀ e ∈ MOCK_SIGNALS, e.id < 100) ∧
    (∀ ev : Event, ∃ (newLogs : List LogRecord) (newSignals : List Signal),
      (step w s ev).logs = newLogs ++ s.logs ∧
      (step w s ev).signals = newSignals ++ s.signals ∧
      (∀ r ∈ newLogs, s.nextId ≤ r.id ∧ r.id < (step w s ev).nextId) ∧
      (∀ e ∈ newSignals, s.nextId ≤ e.id ∧ e.id < (step w s ev).nextId) ∧
      (∀ r ∈ newLogs, ∀ e ∈ newSignals, e.id < r.id) ∧
      List.Pairwise (fun a b => b < a) (newLogs.map (fun r => r.id)) ∧
      List.Pairwise (fun a b => b < a) (newSignals.map (fun e => e.id))) := by
  obtain ⟨evs, rfl⟩ := h
  obtain ⟨_, added, appended, hl, hs, hpl, hps, hbl, hbs, hx⟩ :=
    idInv_run w evs initialState idInv_initial
  have seedLogs : ∀ r ∈ initialLogs, r.id < 100 := by decide
  have seedSignals : ∀ e ∈ MOCK_SIGNALS, e.id < 100 := by decide
  refine ⟨?_, ?_, ⟨added, appended, hl, hs, hbl, hbs, hx, hpl, hps⟩, seedLogs, seedSignals,
    ?_⟩
  · rw [hl, List.map_append, List.nodup_append]
    refine ⟨hpl.imp (fun hab => Nat.ne_of_gt hab), by decide, ?_⟩
    intro a ha hb
    obtain ⟨r, hr, rfl⟩ := List.mem_map.1 ha
    obtain ⟨r2, hr2, hrr⟩ := List.mem_map.1 hb
    have := hbl r hr
    have := seedLogs r2 hr2
    omega
  · rw [hs, List.map_append, List.nodup_append]
    refine ⟨hps.imp (fun hab => Nat.ne_of_gt hab), by decide, ?_⟩
    intro a ha hb
    obtain ⟨e, he, rfl⟩ := List.mem_map.1 ha
    obtain ⟨e2, he2, hee⟩ := List.mem_map.1 hb
    have := hbs e he
    have := seedSignals e2 he2
    omega
  · intro ev
    obtain ⟨newLogs, newSignals, gl, gs, _, gpl, gps, gbl, gbs, gx⟩ :=
      step_ids w (run w evs initialState) ev
    exact ⟨newLogs, newSignals, gl, gs, gbl, gbs, gx, gpl, gps⟩

/-- Witness of C16: the state after the same command was submitted twice
within 100 ms and all four timers fired. -/
theorem assigned_ids_distinct_witness :
    Reachable exampleWorld (run exampleWorld duplicateSubmission initialState) ∧
    ((run exampleWorld duplicateSubmission initialState).logs.map (fun r => r.id)).Nodup ∧
    ((run exampleWorld duplicateSubmission initialState).signals.map (fun e => e.id)).Nodup ∧
    (run exampleWorld duplicateSubmission initialState).logs.map (fun r => r.id)
      = [107, 105, 103, 102, 101, 100, 0, 1, 2, 3, 4, 5, 6] ∧
    (run exampleWorld duplicateSubmission initialState).signals.map (fun e => e.id)
      = [106, 104, 1, 2, 3, 4] := by
  have h := assigned_ids_distinct exampleWorld
    (run exampleWorld duplicateSubmission initialState) ⟨duplicateSubmission, rfl⟩
  exact ⟨⟨_, rfl⟩, h.1, h.2.1, by decide, by decide⟩

/-- C11: outcomes settle in submission order.  Take a state with no pending
timer and any run from it in which the commands are submitted one after the
other (each at a time not before the previous one) and every timer callback
fires in due-time order, ties in registration order; toggles may come
anywhere.  Whatever the backend draws, the orders in the ledger, read in
append order, followed by the orders still waiting for their settle stage, are
the orders there were followed by the submitted orders in submission order.
So once every timer has fired the new ledger entries, most recent first, are
the submitted commands in reverse submission order: the entry of an earlier
command lies below the entry of a later one. -/
theorem settle_in_submission_order (w : World) (s : State) (evs : List Event)
    (h0 : s.timers = []) (hv : dueOrdered w 0 s evs = true) :
    ordersInOrder (run w evs s)
      = s.signals.reverse.map Signal.order ++ submittedOrders w s evs ∧
    ((run w evs s).timers = [] →
      ∃ newSignals : List Signal,
        (run w evs s).signals = newSignals ++ s.signals ∧
        newSignals.map Signal.order = (submittedOrders w s evs).reverse) := by
  have hq : QueueOk 0 s.timers := by
    rw [h0]
    exact ⟨List.Pairwise.nil, by simp⟩
  have h := fifo_run w evs 0 s hq hv
  have hs : ordersInOrder s = s.signals.reverse.map Signal.order := by
    simp [ordersInOrder, h0, pendingOrders]
  rw [hs] at h
  refine ⟨h, ?_⟩
  intro hend
  obtain ⟨_, newSignals, _, hsig⟩ := run_histories w evs s
  refine ⟨newSignals, hsig, ?_⟩
  have h2 : ordersInOrder (run w evs s)
      = s.signals.reverse.map Signal.order ++ (newSignals.map Signal.order).reverse := by
    simp [ordersInOrder, hend, pendingOrders, hsig]
  rw [h2] at h
  have h3 := List.append_cancel_left h
  rw [← h3, List.reverse_reverse]

/-- Witness of C11: a buy command at 0 ms and a sell command at 500 ms, from
the initial state; the settle of the first and the dispatch of the second are
both due at 800 ms.  The ledger ends with the sell entry on top of the buy
entry. -/
theorem settle_in_submission_order_witness :
    initialState.timers = [] ∧
    dueOrdered exampleWorld 0 initialState buyThenSell = true ∧
    (run exampleWorld buyThenSell initialState).timers = [] ∧
    submittedOrders exampleWorld initialState buyThenSell
      = [ { time := "09:30:00", pair := "BTC/USDT", action := "BUY",
            price := .decimal false 974325 (-1), qty := .decimal false 15 (-3) },
          { time := "09:30:03", pair := "ETH/USDT", action := "SELL",
            price := .decimal false 38421 (-1), qty := .decimal false 85 (-2) } ] ∧
    ∃ newSignals : List Signal,
      (run exampleWorld buyThenSell initialState).signals
        = newSignals ++ initialState.signals ∧
      newSignals.map Signal.order
        = (submittedOrders exampleWorld initialState buyThenSell).reverse :=
  ⟨rfl, by decide, by decide, by decide,
    (settle_in_submission_order exampleWorld initialState buyThenSell rfl (by decide)).2
      (by decide)⟩

end TradingWebDemo
